import Mathlib

/-!
Verification of the cube-state engine, algorithm layer and two-phase IDA*
solver of a 3x3x3 twisty-puzzle solver written in Rust.

The Rust sources are embedded shallowly:
* `src/cube/cubie.rs`  — cubie-level data (edge / corner identities, slots,
  orientations),
* `src/cube/mod.rs`    — the `Cube` state and its turn engine `Cube::twist`,
* `src/cube/algs.rs`   — twists, algorithm parsing, random scrambles and the
  simplifier,
* `src/solver/mod.rs`  — heuristics, `is_g1`, and the IDA* driver
  (`dfs` / `group_solver` / `solver`).

Rust arrays indexed by slot enums are modelled as total functions from the
slot type; in-place mutation is modelled by threading the updated value.
The process-wide lookup tables (`OnceLock<LookupTable>`) are modelled as an
explicit function parameter `table : Nat → Nat`.  The unbounded IDA* driver
loops are modelled with explicit fuel and an `Option` result (`none` = fuel
exhausted); all theorems about them are fuel-independent.
-/

set_option maxHeartbeats 2000000
set_option maxRecDepth 8192

namespace RubiksSolver

/-- `Turn` from `src/cube/algs.rs` (identical to the copy in `src/cube/mod.rs`):
the six faces. -/
inductive Turn where
  | U | L | F | R | B | D
deriving DecidableEq, Repr, Fintype

/-- `TurnDir` from `src/cube/algs.rs`: rotation amount of a face turn. -/
inductive TurnDir where
  | None | One | Two | Prime
deriving DecidableEq, Repr, Fintype

/-- `Twist` (face + direction) from `src/cube/algs.rs` / `src/cube/mod.rs`. -/
structure Twist where
  turn : Turn
  dir : TurnDir
deriving DecidableEq, Repr, Fintype

/-- `Turn::is_opposite` from `src/cube/algs.rs`. -/
def Turn.is_opposite (a : Turn) (other : Turn) : Bool :=
  match a, other with
  | .U, .D | .D, .U | .L, .R | .R, .L | .F, .B | .B, .F => true
  | _, _ => false

/-- `TurnDir::as_u8` from `src/cube/algs.rs`. -/
def TurnDir.as_u8 : TurnDir → Nat
  | .None => 0
  | .One => 1
  | .Two => 2
  | .Prime => 3

/-- `TurnDir::from_u8` from `src/cube/algs.rs` (`v % 4`). -/
def TurnDir.from_u8 (v : Nat) : TurnDir :=
  match v % 4 with
  | 0 => .None
  | 1 => .One
  | 2 => .Two
  | _ => .Prime

/-- `impl Add for TurnDir` from `src/cube/algs.rs`. -/
def TurnDir.add (a b : TurnDir) : TurnDir :=
  TurnDir.from_u8 (a.as_u8 + b.as_u8)

/-- `Twist::inverse` from `src/cube/mod.rs` / `src/cube/algs.rs`. -/
def Twist.inverse (t : Twist) : Twist :=
  match t with
  | ⟨turn, .None⟩ => ⟨turn, .None⟩
  | ⟨turn, .One⟩ => ⟨turn, .Prime⟩
  | ⟨turn, .Two⟩ => ⟨turn, .Two⟩
  | ⟨turn, .Prime⟩ => ⟨turn, .One⟩

/-- `Twist::try_add` from `src/cube/algs.rs`. -/
def Twist.try_add (a other : Twist) : Option Twist :=
  if a.turn ≠ other.turn then none
  else some ⟨a.turn, a.dir.add other.dir⟩

/-- `Twist::ALL_MOVES` from `src/cube/mod.rs` (named `ALL_TWISTS` in
`src/cube/algs.rs`, same 18 entries in the same order). -/
def Twist.ALL_MOVES : List Twist :=
  [⟨.U, .One⟩, ⟨.U, .Two⟩, ⟨.U, .Prime⟩,
   ⟨.D, .One⟩, ⟨.D, .Two⟩, ⟨.D, .Prime⟩,
   ⟨.F, .One⟩, ⟨.F, .Two⟩, ⟨.F, .Prime⟩,
   ⟨.B, .One⟩, ⟨.B, .Two⟩, ⟨.B, .Prime⟩,
   ⟨.L, .One⟩, ⟨.L, .Two⟩, ⟨.L, .Prime⟩,
   ⟨.R, .One⟩, ⟨.R, .Two⟩, ⟨.R, .Prime⟩]

/-- `Twist::allowed_moves_from_moveset` from `src/cube/algs.rs`
(identical filter in `src/cube/mod.rs`). -/
def Twist.allowed_moves_from_moveset (moveset : List Twist) (prev : Option Turn) :
    List Twist :=
  moveset.filter fun m =>
    match prev with
    | none => true
    | some p =>
      match p with
      | .U | .R | .F => m.turn ≠ p
      | .L => m.turn ≠ Turn.L ∧ m.turn ≠ Turn.R
      | .B => m.turn ≠ Turn.B ∧ m.turn ≠ Turn.F
      | .D => m.turn ≠ Turn.D ∧ m.turn ≠ Turn.U

/-- `Twist::allowed_moves` from `src/cube/algs.rs`. -/
def Twist.allowed_moves (prev : Option Turn) : List Twist :=
  Twist.allowed_moves_from_moveset Twist.ALL_MOVES prev

/-- `EdgeId` from `src/cube/cubie.rs`: the 12 edge cubies by their colors. -/
inductive EdgeId where
  | WB | WR | WG | WO | BO | BR | GR | GO | YG | YR | YB | YO
deriving DecidableEq, Repr, Fintype

/-- `EdgeId::idx` (the `self as usize` enum discriminant). -/
def EdgeId.idx : EdgeId → Nat
  | .WB => 0 | .WR => 1 | .WG => 2 | .WO => 3
  | .BO => 4 | .BR => 5 | .GR => 6 | .GO => 7
  | .YG => 8 | .YR => 9 | .YB => 10 | .YO => 11

/-- `EdgePos` from `src/cube/cubie.rs`: the 12 physical edge slots. -/
inductive EdgePos where
  | UB | UR | UF | UL | BL | BR | FR | FL | DF | DR | DB | DL
deriving DecidableEq, Repr, Fintype

/-- `EdgePos::idx` (enum discriminant). -/
def EdgePos.idx : EdgePos → Nat
  | .UB => 0 | .UR => 1 | .UF => 2 | .UL => 3
  | .BL => 4 | .BR => 5 | .FR => 6 | .FL => 7
  | .DF => 8 | .DR => 9 | .DB => 10 | .DL => 11

/-- `CornerPos` from `src/cube/cubie.rs`: the 8 physical corner slots. -/
inductive CornerPos where
  | UBL | UBR | UFR | UFL | DFL | DFR | DBR | DBL
deriving DecidableEq, Repr, Fintype

/-- `CornerPos::idx` (enum discriminant). -/
def CornerPos.idx : CornerPos → Nat
  | .UBL => 0 | .UBR => 1 | .UFR => 2 | .UFL => 3
  | .DFL => 4 | .DFR => 5 | .DBR => 6 | .DBL => 7

/-- `CornerId` from `src/cube/cubie.rs`: the 8 corner cubies by their colors. -/
inductive CornerId where
  | WBO | WBR | WGR | WGO | YGO | YGR | YBR | YBO
deriving DecidableEq, Repr, Fintype

/-- `CornerId::idx` (enum discriminant). -/
def CornerId.idx : CornerId → Nat
  | .WBO => 0 | .WBR => 1 | .WGR => 2 | .WGO => 3
  | .YGO => 4 | .YGR => 5 | .YBR => 6 | .YBO => 7

/-- `CornerOrientation` from `src/cube/cubie.rs`. -/
inductive CornerOrientation where
  | Zero | One | Two
deriving DecidableEq, Repr, Fintype

/-- The discriminant of `CornerOrientation` (`orientation as usize`). -/
def CornerOrientation.val : CornerOrientation → Nat
  | .Zero => 0
  | .One => 1
  | .Two => 2

/-- `Edge` from `src/cube/cubie.rs`. -/
structure Edge where
  id : EdgeId
  flipped : Bool
deriving DecidableEq, Repr

/-- `Edge::flip` from `src/cube/cubie.rs`. -/
def Edge.flip (e : Edge) : Edge :=
  { e with flipped := !e.flipped }

/-- `Corner` from `src/cube/cubie.rs`. -/
structure Corner where
  id : CornerId
  orientation : CornerOrientation
deriving DecidableEq, Repr

/-- `Corner::twist_clockwise` from `src/cube/cubie.rs`. -/
def Corner.twist_clockwise (c : Corner) : Corner :=
  { c with orientation :=
      match c.orientation with
      | .Zero => .One
      | .One => .Two
      | .Two => .Zero }

/-- `Corner::twist_counterclockwise` from `src/cube/cubie.rs`. -/
def Corner.twist_counterclockwise (c : Corner) : Corner :=
  { c with orientation :=
      match c.orientation with
      | .Zero => .Two
      | .One => .Zero
      | .Two => .One }

/-- `Cube` from `src/cube/mod.rs`.  The Rust arrays `[Edge; 12]` / `[Corner; 8]`
indexed by slot discriminants are modelled as total functions from the slot
enums. -/
structure Cube where
  edges : EdgePos → Edge
  corners : CornerPos → Corner

attribute [ext] Cube

instance : DecidableEq Cube := fun a b =>
  decidable_of_iff ((∀ p, a.edges p = b.edges p) ∧ ∀ p, a.corners p = b.corners p)
    ⟨fun h => Cube.ext (funext h.1) (funext h.2),
      fun h => h ▸ ⟨fun _ => rfl, fun _ => rfl⟩⟩

/-- Equality decision for pairs that never transports along component proofs,
so concrete solver results can be evaluated by the kernel even when a cube
equality proof is only extensional. -/
instance prodDecEqNoTransport {α β : Type} [DecidableEq α] [DecidableEq β] :
    DecidableEq (α × β) := fun a b =>
  match a, b with
  | (a1, a2), (b1, b2) =>
    match decEq a1 b1, decEq a2 b2 with
    | isTrue h1, isTrue h2 => isTrue (by rw [h1, h2])
    | isFalse h1, _ => isFalse fun hh => h1 (congrArg Prod.fst hh)
    | isTrue _, isFalse h2 => isFalse fun hh => h2 (congrArg Prod.snd hh)

/-- Equality decision for `Option` without transport (see
`prodDecEqNoTransport`). -/
instance optionDecEqNoTransport {α : Type} [DecidableEq α] :
    DecidableEq (Option α) := fun x y =>
  match x, y with
  | none, none => isTrue rfl
  | none, some _ => isFalse fun h => Option.noConfusion h
  | some _, none => isFalse fun h => Option.noConfusion h
  | some a, some b =>
    match decEq a b with
    | isTrue h => isTrue (congrArg some h)
    | isFalse h => isFalse fun hh => h (Option.some.inj hh)

/-- `Cube::SOLVED_EDGES` from `src/cube/mod.rs` (slot-indexed). -/
def Cube.SOLVED_EDGES : EdgePos → Edge
  | .UB => ⟨.WB, false⟩
  | .UR => ⟨.WR, false⟩
  | .UF => ⟨.WG, false⟩
  | .UL => ⟨.WO, false⟩
  | .BL => ⟨.BO, false⟩
  | .BR => ⟨.BR, false⟩
  | .FR => ⟨.GR, false⟩
  | .FL => ⟨.GO, false⟩
  | .DF => ⟨.YG, false⟩
  | .DR => ⟨.YR, false⟩
  | .DB => ⟨.YB, false⟩
  | .DL => ⟨.YO, false⟩

/-- `Cube::SOLVED_CORNERS` from `src/cube/mod.rs` (slot-indexed). -/
def Cube.SOLVED_CORNERS : CornerPos → Corner
  | .UBL => ⟨.WBO, .Zero⟩
  | .UBR => ⟨.WBR, .Zero⟩
  | .UFR => ⟨.WGR, .Zero⟩
  | .UFL => ⟨.WGO, .Zero⟩
  | .DFL => ⟨.YGO, .Zero⟩
  | .DFR => ⟨.YGR, .Zero⟩
  | .DBR => ⟨.YBR, .Zero⟩
  | .DBL => ⟨.YBO, .Zero⟩

/-- `Cube::new_solved` from `src/cube/mod.rs`. -/
def Cube.new_solved : Cube :=
  { edges := Cube.SOLVED_EDGES, corners := Cube.SOLVED_CORNERS }

/-- `Cube::swap_edges` from `src/cube/mod.rs`: sequential array assignments
through a temporary, modelled with `Function.update` in assignment order. -/
def Cube.swap_edges (cube : Cube) (a b : EdgePos) : Cube :=
  let tmp := cube.edges a
  let e1 := Function.update cube.edges a (cube.edges b)
  { cube with edges := Function.update e1 b tmp }

/-- `Cube::swap_corners` from `src/cube/mod.rs`. -/
def Cube.swap_corners (cube : Cube) (a b : CornerPos) : Cube :=
  let tmp := cube.corners a
  let c1 := Function.update cube.corners a (cube.corners b)
  { cube with corners := Function.update c1 b tmp }

/-- `Cube::swap_opposite_edges` from `src/cube/mod.rs`. -/
def Cube.swap_opposite_edges (cube : Cube) (a b c d : EdgePos) : Cube :=
  (cube.swap_edges a c).swap_edges b d

/-- `Cube::swap_opposite_corners` from `src/cube/mod.rs`. -/
def Cube.swap_opposite_corners (cube : Cube) (a b c d : CornerPos) : Cube :=
  (cube.swap_corners a c).swap_corners b d

/-- `Cube::cycle_edges_right` from `src/cube/mod.rs`: cycles a -> b -> c -> d -> a.
The source reads each slot of the ring before overwriting it through a
temporary; a face ring consists of four pairwise distinct slots, so every read
sees the incoming state, modelled by binding all four reads upfront. -/
def Cube.cycle_edges_right (cube : Cube) (a b c d : EdgePos) : Cube :=
  let ea := cube.edges a
  let eb := cube.edges b
  let ec := cube.edges c
  let tmp := cube.edges d
  { cube with edges :=
      Function.update (Function.update (Function.update
        (Function.update cube.edges d ec) c eb) b ea) a tmp }

/-- `Cube::cycle_corners_right` from `src/cube/mod.rs` (same read discipline
as `cycle_edges_right`). -/
def Cube.cycle_corners_right (cube : Cube) (a b c d : CornerPos) : Cube :=
  let ca := cube.corners a
  let cb := cube.corners b
  let cc := cube.corners c
  let tmp := cube.corners d
  { cube with corners :=
      Function.update (Function.update (Function.update
        (Function.update cube.corners d cc) c cb) b ca) a tmp }

/-- `Cube::cycle_edges_left` from `src/cube/mod.rs`: cycles a -> d -> c -> b -> a. -/
def Cube.cycle_edges_left (cube : Cube) (a b c d : EdgePos) : Cube :=
  let tmp := cube.edges a
  let eb := cube.edges b
  let ec := cube.edges c
  let ed := cube.edges d
  { cube with edges :=
      Function.update (Function.update (Function.update
        (Function.update cube.edges a eb) b ec) c ed) d tmp }

/-- `Cube::cycle_corners_left` from `src/cube/mod.rs`. -/
def Cube.cycle_corners_left (cube : Cube) (a b c d : CornerPos) : Cube :=
  let tmp := cube.corners a
  let cb := cube.corners b
  let cc := cube.corners c
  let cd := cube.corners d
  { cube with corners :=
      Function.update (Function.update (Function.update
        (Function.update cube.corners a cb) b cc) c cd) d tmp }

/-- `Cube::flip_edges` from `src/cube/mod.rs`: flips the edges at the four
(pairwise distinct) ring positions. -/
def Cube.flip_edges (cube : Cube) (a b c d : EdgePos) : Cube :=
  let ea := (cube.edges a).flip
  let eb := (cube.edges b).flip
  let ec := (cube.edges c).flip
  let ed := (cube.edges d).flip
  { cube with edges :=
      Function.update (Function.update (Function.update
        (Function.update cube.edges a ea) b eb) c ec) d ed }

/-- `Cube::corner_correction` from `src/cube/mod.rs`: a and c twist
counterclockwise, b and d clockwise (four pairwise distinct positions). -/
def Cube.corner_correction (cube : Cube) (a b c d : CornerPos) : Cube :=
  let ca := (cube.corners a).twist_counterclockwise
  let cb := (cube.corners b).twist_clockwise
  let cc := (cube.corners c).twist_counterclockwise
  let cd := (cube.corners d).twist_clockwise
  { cube with corners :=
      Function.update (Function.update (Function.update
        (Function.update cube.corners a ca) b cb) c cc) d cd }

/-- `Cube::twist` from `src/cube/mod.rs`.  The Rust code selects
(cycle function, whether to apply orientation corrections) from the direction
and then matches the face; here the outer match is on the direction and the
face ring positions are copied verbatim from the source. -/
def Cube.twist (cube : Cube) (tw : Twist) : Cube :=
  match tw.dir with
  | .None => cube
  | .One =>
    match tw.turn with
    | .U => (cube.cycle_edges_right .UB .UR .UF .UL).cycle_corners_right .UBL .UBR .UFR .UFL
    | .D => (cube.cycle_edges_right .DF .DR .DB .DL).cycle_corners_right .DFL .DFR .DBR .DBL
    | .F =>
      (((cube.cycle_edges_right .UF .FR .DF .FL).cycle_corners_right .UFL .UFR .DFR .DFL
        ).flip_edges .UF .FR .DF .FL).corner_correction .UFL .UFR .DFR .DFL
    | .B =>
      (((cube.cycle_edges_right .UB .BL .DB .BR).cycle_corners_right .UBL .DBL .DBR .UBR
        ).flip_edges .UB .BL .DB .BR).corner_correction .UBR .UBL .DBL .DBR
    | .L =>
      ((cube.cycle_edges_right .UL .FL .DL .BL).cycle_corners_right .UBL .UFL .DFL .DBL
        ).corner_correction .UBL .UFL .DFL .DBL
    | .R =>
      ((cube.cycle_edges_right .UR .BR .DR .FR).cycle_corners_right .UFR .UBR .DBR .DFR
        ).corner_correction .UFR .UBR .DBR .DFR
  | .Two =>
    match tw.turn with
    | .U => (cube.swap_opposite_edges .UB .UR .UF .UL).swap_opposite_corners .UBL .UBR .UFR .UFL
    | .D => (cube.swap_opposite_edges .DF .DR .DB .DL).swap_opposite_corners .DFL .DFR .DBR .DBL
    | .F => (cube.swap_opposite_edges .UF .FR .DF .FL).swap_opposite_corners .UFL .UFR .DFR .DFL
    | .B => (cube.swap_opposite_edges .UB .BL .DB .BR).swap_opposite_corners .UBL .DBL .DBR .UBR
    | .L => (cube.swap_opposite_edges .UL .FL .DL .BL).swap_opposite_corners .UBL .UFL .DFL .DBL
    | .R => (cube.swap_opposite_edges .UR .BR .DR .FR).swap_opposite_corners .UFR .UBR .DBR .DFR
  | .Prime =>
    match tw.turn with
    | .U => (cube.cycle_edges_left .UB .UR .UF .UL).cycle_corners_left .UBL .UBR .UFR .UFL
    | .D => (cube.cycle_edges_left .DF .DR .DB .DL).cycle_corners_left .DFL .DFR .DBR .DBL
    | .F =>
      (((cube.cycle_edges_left .UF .FR .DF .FL).cycle_corners_left .UFL .UFR .DFR .DFL
        ).flip_edges .UF .FR .DF .FL).corner_correction .UFL .UFR .DFR .DFL
    | .B =>
      (((cube.cycle_edges_left .UB .BL .DB .BR).cycle_corners_left .UBL .DBL .DBR .UBR
        ).flip_edges .UB .BL .DB .BR).corner_correction .UBR .UBL .DBL .DBR
    | .L =>
      ((cube.cycle_edges_left .UL .FL .DL .BL).cycle_corners_left .UBL .UFL .DFL .DBL
        ).corner_correction .UBL .UFL .DFL .DBL
    | .R =>
      ((cube.cycle_edges_left .UR .BR .DR .FR).cycle_corners_left .UFR .UBR .DBR .DFR
        ).corner_correction .UFR .UBR .DBR .DFR

/-! ### Closed forms of the turn engine

For each face and direction, `Cube.twist` is a fixed rearrangement of the 20
slots together with fixed orientation adjustments.  The following `twist_spec_*`
functions state that rearrangement slot by slot; `twist_eq_spec` proves each
equal to `Cube.twist` by evaluating the source definition at all 20 slots.
All later reasoning about `Cube.twist` rewrites through these forms. -/

def twist_spec_U1 (c : Cube) : Cube :=
  { edges := fun p =>
      match p with
      | .UR => c.edges .UB
      | .UF => c.edges .UR
      | .UL => c.edges .UF
      | .UB => c.edges .UL
      | q => c.edges q,
    corners := fun p =>
      match p with
      | .UBR => c.corners .UBL
      | .UFR => c.corners .UBR
      | .UFL => c.corners .UFR
      | .UBL => c.corners .UFL
      | q => c.corners q }

def twist_spec_U2 (c : Cube) : Cube :=
  { edges := fun p =>
      match p with
      | .UB => c.edges .UF
      | .UF => c.edges .UB
      | .UR => c.edges .UL
      | .UL => c.edges .UR
      | q => c.edges q,
    corners := fun p =>
      match p with
      | .UBL => c.corners .UFR
      | .UFR => c.corners .UBL
      | .UBR => c.corners .UFL
      | .UFL => c.corners .UBR
      | q => c.corners q }

def twist_spec_U3 (c : Cube) : Cube :=
  { edges := fun p =>
      match p with
      | .UB => c.edges .UR
      | .UR => c.edges .UF
      | .UF => c.edges .UL
      | .UL => c.edges .UB
      | q => c.edges q,
    corners := fun p =>
      match p with
      | .UBL => c.corners .UBR
      | .UBR => c.corners .UFR
      | .UFR => c.corners .UFL
      | .UFL => c.corners .UBL
      | q => c.corners q }

def twist_spec_D1 (c : Cube) : Cube :=
  { edges := fun p =>
      match p with
      | .DR => c.edges .DF
      | .DB => c.edges .DR
      | .DL => c.edges .DB
      | .DF => c.edges .DL
      | q => c.edges q,
    corners := fun p =>
      match p with
      | .DFR => c.corners .DFL
      | .DBR => c.corners .DFR
      | .DBL => c.corners .DBR
      | .DFL => c.corners .DBL
      | q => c.corners q }

def twist_spec_D2 (c : Cube) : Cube :=
  { edges := fun p =>
      match p with
      | .DF => c.edges .DB
      | .DB => c.edges .DF
      | .DR => c.edges .DL
      | .DL => c.edges .DR
      | q => c.edges q,
    corners := fun p =>
      match p with
      | .DFL => c.corners .DBR
      | .DBR => c.corners .DFL
      | .DFR => c.corners .DBL
      | .DBL => c.corners .DFR
      | q => c.corners q }

def twist_spec_D3 (c : Cube) : Cube :=
  { edges := fun p =>
      match p with
      | .DF => c.edges .DR
      | .DR => c.edges .DB
      | .DB => c.edges .DL
      | .DL => c.edges .DF
      | q => c.edges q,
    corners := fun p =>
      match p with
      | .DFL => c.corners .DFR
      | .DFR => c.corners .DBR
      | .DBR => c.corners .DBL
      | .DBL => c.corners .DFL
      | q => c.corners q }

def twist_spec_F1 (c : Cube) : Cube :=
  { edges := fun p =>
      match p with
      | .FR => (c.edges .UF).flip
      | .DF => (c.edges .FR).flip
      | .FL => (c.edges .DF).flip
      | .UF => (c.edges .FL).flip
      | q => c.edges q,
    corners := fun p =>
      match p with
      | .UFL => (c.corners .DFL).twist_counterclockwise
      | .UFR => (c.corners .UFL).twist_clockwise
      | .DFR => (c.corners .UFR).twist_counterclockwise
      | .DFL => (c.corners .DFR).twist_clockwise
      | q => c.corners q }

def twist_spec_F2 (c : Cube) : Cube :=
  { edges := fun p =>
      match p with
      | .UF => c.edges .DF
      | .DF => c.edges .UF
      | .FR => c.edges .FL
      | .FL => c.edges .FR
      | q => c.edges q,
    corners := fun p =>
      match p with
      | .UFL => c.corners .DFR
      | .DFR => c.corners .UFL
      | .UFR => c.corners .DFL
      | .DFL => c.corners .UFR
      | q => c.corners q }

def twist_spec_F3 (c : Cube) : Cube :=
  { edges := fun p =>
      match p with
      | .UF => (c.edges .FR).flip
      | .FR => (c.edges .DF).flip
      | .DF => (c.edges .FL).flip
      | .FL => (c.edges .UF).flip
      | q => c.edges q,
    corners := fun p =>
      match p with
      | .UFL => (c.corners .UFR).twist_counterclockwise
      | .UFR => (c.corners .DFR).twist_clockwise
      | .DFR => (c.corners .DFL).twist_counterclockwise
      | .DFL => (c.corners .UFL).twist_clockwise
      | q => c.corners q }

def twist_spec_B1 (c : Cube) : Cube :=
  { edges := fun p =>
      match p with
      | .BL => (c.edges .UB).flip
      | .DB => (c.edges .BL).flip
      | .BR => (c.edges .DB).flip
      | .UB => (c.edges .BR).flip
      | q => c.edges q,
    corners := fun p =>
      match p with
      | .UBR => (c.corners .DBR).twist_counterclockwise
      | .UBL => (c.corners .UBR).twist_clockwise
      | .DBL => (c.corners .UBL).twist_counterclockwise
      | .DBR => (c.corners .DBL).twist_clockwise
      | q => c.corners q }

def twist_spec_B2 (c : Cube) : Cube :=
  { edges := fun p =>
      match p with
      | .UB => c.edges .DB
      | .DB => c.edges .UB
      | .BL => c.edges .BR
      | .BR => c.edges .BL
      | q => c.edges q,
    corners := fun p =>
      match p with
      | .UBL => c.corners .DBR
      | .DBR => c.corners .UBL
      | .DBL => c.corners .UBR
      | .UBR => c.corners .DBL
      | q => c.corners q }

def twist_spec_B3 (c : Cube) : Cube :=
  { edges := fun p =>
      match p with
      | .UB => (c.edges .BL).flip
      | .BL => (c.edges .DB).flip
      | .DB => (c.edges .BR).flip
      | .BR => (c.edges .UB).flip
      | q => c.edges q,
    corners := fun p =>
      match p with
      | .UBR => (c.corners .UBL).twist_counterclockwise
      | .UBL => (c.corners .DBL).twist_clockwise
      | .DBL => (c.corners .DBR).twist_counterclockwise
      | .DBR => (c.corners .UBR).twist_clockwise
      | q => c.corners q }

def twist_spec_L1 (c : Cube) : Cube :=
  { edges := fun p =>
      match p with
      | .FL => c.edges .UL
      | .DL => c.edges .FL
      | .BL => c.edges .DL
      | .UL => c.edges .BL
      | q => c.edges q,
    corners := fun p =>
      match p with
      | .UBL => (c.corners .DBL).twist_counterclockwise
      | .UFL => (c.corners .UBL).twist_clockwise
      | .DFL => (c.corners .UFL).twist_counterclockwise
      | .DBL => (c.corners .DFL).twist_clockwise
      | q => c.corners q }

def twist_spec_L2 (c : Cube) : Cube :=
  { edges := fun p =>
      match p with
      | .UL => c.edges .DL
      | .DL => c.edges .UL
      | .FL => c.edges .BL
      | .BL => c.edges .FL
      | q => c.edges q,
    corners := fun p =>
      match p with
      | .UBL => c.corners .DFL
      | .DFL => c.corners .UBL
      | .UFL => c.corners .DBL
      | .DBL => c.corners .UFL
      | q => c.corners q }

def twist_spec_L3 (c : Cube) : Cube :=
  { edges := fun p =>
      match p with
      | .UL => c.edges .FL
      | .FL => c.edges .DL
      | .DL => c.edges .BL
      | .BL => c.edges .UL
      | q => c.edges q,
    corners := fun p =>
      match p with
      | .UBL => (c.corners .UFL).twist_counterclockwise
      | .UFL => (c.corners .DFL).twist_clockwise
      | .DFL => (c.corners .DBL).twist_counterclockwise
      | .DBL => (c.corners .UBL).twist_clockwise
      | q => c.corners q }

def twist_spec_R1 (c : Cube) : Cube :=
  { edges := fun p =>
      match p with
      | .BR => c.edges .UR
      | .DR => c.edges .BR
      | .FR => c.edges .DR
      | .UR => c.edges .FR
      | q => c.edges q,
    corners := fun p =>
      match p with
      | .UFR => (c.corners .DFR).twist_counterclockwise
      | .UBR => (c.corners .UFR).twist_clockwise
      | .DBR => (c.corners .UBR).twist_counterclockwise
      | .DFR => (c.corners .DBR).twist_clockwise
      | q => c.corners q }

def twist_spec_R2 (c : Cube) : Cube :=
  { edges := fun p =>
      match p with
      | .UR => c.edges .DR
      | .DR => c.edges .UR
      | .BR => c.edges .FR
      | .FR => c.edges .BR
      | q => c.edges q,
    corners := fun p =>
      match p with
      | .UFR => c.corners .DBR
      | .DBR => c.corners .UFR
      | .UBR => c.corners .DFR
      | .DFR => c.corners .UBR
      | q => c.corners q }

def twist_spec_R3 (c : Cube) : Cube :=
  { edges := fun p =>
      match p with
      | .UR => c.edges .BR
      | .BR => c.edges .DR
      | .DR => c.edges .FR
      | .FR => c.edges .UR
      | q => c.edges q,
    corners := fun p =>
      match p with
      | .UFR => (c.corners .UBR).twist_counterclockwise
      | .UBR => (c.corners .DBR).twist_clockwise
      | .DBR => (c.corners .DFR).twist_counterclockwise
      | .DFR => (c.corners .UFR).twist_clockwise
      | q => c.corners q }

/-- Dispatcher for the 18 closed forms (identity at direction `None`). -/
def twist_spec (t : Twist) (c : Cube) : Cube :=
  match t with
  | ⟨_, .None⟩ => c
  | ⟨.U, .One⟩ => twist_spec_U1 c
  | ⟨.U, .Two⟩ => twist_spec_U2 c
  | ⟨.U, .Prime⟩ => twist_spec_U3 c
  | ⟨.D, .One⟩ => twist_spec_D1 c
  | ⟨.D, .Two⟩ => twist_spec_D2 c
  | ⟨.D, .Prime⟩ => twist_spec_D3 c
  | ⟨.F, .One⟩ => twist_spec_F1 c
  | ⟨.F, .Two⟩ => twist_spec_F2 c
  | ⟨.F, .Prime⟩ => twist_spec_F3 c
  | ⟨.B, .One⟩ => twist_spec_B1 c
  | ⟨.B, .Two⟩ => twist_spec_B2 c
  | ⟨.B, .Prime⟩ => twist_spec_B3 c
  | ⟨.L, .One⟩ => twist_spec_L1 c
  | ⟨.L, .Two⟩ => twist_spec_L2 c
  | ⟨.L, .Prime⟩ => twist_spec_L3 c
  | ⟨.R, .One⟩ => twist_spec_R1 c
  | ⟨.R, .Two⟩ => twist_spec_R2 c
  | ⟨.R, .Prime⟩ => twist_spec_R3 c

/-- `Cube::is_solved` from `src/cube/mod.rs`. -/
def Cube.is_solved (cube : Cube) : Bool :=
  decide (cube.edges = Cube.SOLVED_EDGES) && decide (cube.corners = Cube.SOLVED_CORNERS)

/-- Slot enumeration in discriminant order (the iteration order of the Rust
arrays `[Edge; 12]`). -/
def edgePosList : List EdgePos :=
  [.UB, .UR, .UF, .UL, .BL, .BR, .FR, .FL, .DF, .DR, .DB, .DL]

/-- Slot enumeration in discriminant order (iteration order of `[Corner; 8]`). -/
def cornerPosList : List CornerPos :=
  [.UBL, .UBR, .UFR, .UFL, .DFL, .DFR, .DBR, .DBL]

/-- `Cube::get_orientation` from `src/cube/mod.rs`: corners (skipping slot 0)
contribute base-3 digits, edges (skipping slot 0) base-2 digits shifted by 3^7. -/
def Cube.get_orientation (cube : Cube) : Nat :=
  let corner_orient := ((cornerPosList.drop 1).enum).foldl
    (fun acc ic => acc + (cube.corners ic.2).orientation.val * 3 ^ ic.1) 0
  let edge_orient := ((edgePosList.drop 1).enum).foldl
    (fun acc ic => acc + (cube.edges ic.2).flipped.toNat * 2 ^ ic.1) 0
  corner_orient + edge_orient * 3 ^ 7

/-- `Turn::from_char` from `src/cube/algs.rs`. -/
def Turn.from_char (c : Char) : Option Turn :=
  if c = 'U' then some .U
  else if c = 'D' then some .D
  else if c = 'F' then some .F
  else if c = 'B' then some .B
  else if c = 'L' then some .L
  else if c = 'R' then some .R
  else none

/-- `TurnDir::from_char` from `src/cube/algs.rs`.  `Char.ofNat 39` is the
ASCII apostrophe, which the source accepts (alongside the digit 3) for a
counterclockwise quarter turn. -/
def TurnDir.from_char (c : Char) : Option TurnDir :=
  if c = '0' then some .None
  else if c = ' ' ∨ c = '1' then some .One
  else if c = '2' then some .Two
  else if c = Char.ofNat 39 ∨ c = '3' then some .Prime
  else none

/-- `Algorithm` from `src/cube/algs.rs`. -/
structure Algorithm where
  twists : List Twist
deriving DecidableEq, Repr

/-- `Algorithm::new` from `src/cube/algs.rs`. -/
def Algorithm.new (twists : List Twist) : Algorithm :=
  ⟨twists⟩

/-- `Algorithm::append` from `src/cube/algs.rs` (`Vec::append` drains `other`
into `self`; only the combined value is modelled). -/
def Algorithm.append (a other : Algorithm) : Algorithm :=
  ⟨a.twists ++ other.twists⟩

/-- One character step of `Algorithm::from_str` from `src/cube/algs.rs`:
whitespace is skipped, a face character pushes a quarter twist, a direction
character overwrites the last twist's direction (if any). -/
def Algorithm.from_str_step (twists : List Twist) (c : Char) : List Twist :=
  if c.isWhitespace then twists
  else
    match Turn.from_char c with
    | some t => twists ++ [Twist.mk t .One]
    | none =>
      match TurnDir.from_char c with
      | some d =>
        match twists.getLast? with
        | some last => twists.dropLast ++ [⟨last.turn, d⟩]
        | none => twists
      | none => twists

/-- `Algorithm::from_str` from `src/cube/algs.rs`. -/
def Algorithm.from_str (s : String) : Algorithm :=
  ⟨s.toList.foldl Algorithm.from_str_step []⟩

/-- One step of `Algorithm::simplify` from `src/cube/algs.rs`.  The Rust
accumulator `simplified` is a `Vec` whose *end* holds the most recent twist;
it is modelled here as a list kept most-recent-first (head = Rust `last`,
second element = Rust `simplified[len - 2]`), so `push` is cons,
`pop`/`remove(len - 2)` drop the corresponding element element-wise. -/
def Algorithm.simplify_step (simplified : List Twist) (t : Twist) : List Twist :=
  if t.dir = TurnDir.None then simplified
  else
    match simplified with
    | [] => [t]
    | last :: rest =>
      match last.try_add t with
      | some added => if added.dir = TurnDir.None then rest else added :: rest
      | none =>
        match rest with
        | second_last :: rest2 =>
          if second_last.turn.is_opposite last.turn then
            match second_last.try_add t with
            | some added =>
              if added.dir = TurnDir.None then last :: rest2
              else last :: added :: rest2
            | none => t :: last :: second_last :: rest2
          else t :: last :: second_last :: rest2
        | [] => [t, last]

/-- `Algorithm::simplify` from `src/cube/algs.rs`: fold the steps over the
twist list; the final reverse restores source order (the model accumulator is
most-recent-first). -/
def Algorithm.simplify (a : Algorithm) : Algorithm :=
  ⟨(a.twists.foldl Algorithm.simplify_step []).reverse⟩

/-- `ConstAlgorithm::SUPERFLIP` from `src/cube/algs.rs` (also the `SUPERFLIP`
constant in `src/main.rs`).  The source string spells counterclockwise quarter
turns with an apostrophe; the digit 3 is parsed identically by
`TurnDir.from_char`. -/
def SUPERFLIP : Algorithm :=
  Algorithm.from_str "U R2 F B R B2 R U2 L B2 R U3 D3 R2 F R3 L B2 U2 F2"

/-- Modelled from the spec: `Cube::apply_algorithm` is invoked by the CLI
(`src/bin/cli.rs`) but its body is not under `src/`; per the spec, "twists
within an Algorithm are ordered by index and applied in that order". -/
def Cube.apply_algorithm (cube : Cube) (alg : Algorithm) : Cube :=
  alg.twists.foldl Cube.twist cube

/-- `Twist::new_random` from `src/cube/algs.rs` chooses uniformly from
`allowed_moves prev` via the thread RNG; the RNG draw is modelled as an
arbitrary natural number `pick` reduced modulo the number of candidates. -/
def Twist.new_random (pick : Nat) (prev_turn : Option Turn) : Twist :=
  let candidates := Twist.allowed_moves prev_turn
  candidates.getD (pick % candidates.length) ⟨.U, .None⟩

/-- The loop body of `Algorithm::new_random` from `src/cube/algs.rs`:
`n` twists are drawn in sequence, each remembering the previous face.
`picks` models the successive RNG draws. -/
def Algorithm.new_random_go (picks : Nat → Nat) (i : Nat) (prev_turn : Option Turn) :
    Nat → List Twist
  | 0 => []
  | n + 1 =>
    let twist := Twist.new_random (picks i) prev_turn
    twist :: Algorithm.new_random_go picks (i + 1) (some twist.turn) n

/-- `Algorithm::new_random` from `src/cube/algs.rs`. -/
def Algorithm.new_random (picks : Nat → Nat) (length : Nat) : Algorithm :=
  ⟨Algorithm.new_random_go picks 0 none length⟩

/-- The move-adjacency constraint asserted by the spec for generated
scrambles: the next face differs from the previous one, and the ordered pairs
D-then-U, L-then-R and B-then-F never occur. -/
def scramble_pair_ok (a b : Turn) : Prop :=
  a ≠ b ∧ ¬(a = .D ∧ b = .U) ∧ ¬(a = .L ∧ b = .R) ∧ ¬(a = .B ∧ b = .F)

instance (a b : Turn) : Decidable (scramble_pair_ok a b) := by
  unfold scramble_pair_ok; infer_instance

/-- `foldl` application of a twist list, the meaning of applying an algorithm
move by move (spec: twists are applied in index order). -/
def Cube.apply_twists (cube : Cube) (l : List Twist) : Cube :=
  l.foldl Cube.twist cube

/-- All twists kept by the simplifier have a nonzero direction. -/
def simplify_dirs_ok (l : List Twist) : Prop :=
  ∀ t ∈ l, t.dir ≠ TurnDir.None

/-- Adjacent twists kept by the simplifier have distinct faces. -/
def simplify_adj_ok (l : List Twist) : Prop :=
  List.Chain' (fun a b => a.turn ≠ b.turn) l

/-- In the most-recent-first accumulator, whenever the middle of three
consecutive twists is on the face opposite to the oldest one, the newest is on
a different face than the oldest (otherwise the simplifier would have combined
them across). -/
def simplify_triple_ok : List Twist → Prop
  | a :: b :: c :: rest =>
    (b.turn.is_opposite c.turn = true → a.turn ≠ c.turn) ∧
      simplify_triple_ok (b :: c :: rest)
  | _ => True

/-- The simplifier accumulator invariant. -/
def simplify_inv (l : List Twist) : Prop :=
  simplify_dirs_ok l ∧ simplify_adj_ok l ∧ simplify_triple_ok l

/-! ### Cube invariants (claim C3)

The spec asserts four invariants of every reachable state: the slot-to-identity
maps are permutations, the corner orientation sum is divisible by 3, the number
of flipped edges is even, and the edge permutation parity equals the corner
permutation parity.  Each twist acts on the slots by an explicit permutation
(a 4-cycle for quarter turns, a double transposition for half turns), with the
same sign on edges and corners. -/

/-- The slot-to-edge-identity map of a cube state. -/
def edge_ids (c : Cube) : EdgePos → EdgeId := fun p => (c.edges p).id

/-- The slot-to-corner-identity map of a cube state. -/
def corner_ids (c : Cube) : CornerPos → CornerId := fun p => (c.corners p).id

/-- Sum of the corner orientations (in slot order). -/
def corner_orientation_sum (c : Cube) : Nat :=
  (cornerPosList.map fun p => (c.corners p).orientation.val).sum

/-- Number of flipped edges (in slot order). -/
def edge_flip_count (c : Cube) : Nat :=
  (edgePosList.map fun p => (c.edges p).flipped.toNat).sum

/-- The slot where each edge identity sits in the solved cube. -/
def solved_edge_index : EdgeId ≃ EdgePos where
  toFun i :=
    match i with
    | .WB => .UB | .WR => .UR | .WG => .UF | .WO => .UL
    | .BO => .BL | .BR => .BR | .GR => .FR | .GO => .FL
    | .YG => .DF | .YR => .DR | .YB => .DB | .YO => .DL
  invFun p :=
    match p with
    | .UB => .WB | .UR => .WR | .UF => .WG | .UL => .WO
    | .BL => .BO | .BR => .BR | .FR => .GR | .FL => .GO
    | .DF => .YG | .DR => .YR | .DB => .YB | .DL => .YO
  left_inv i := by cases i <;> rfl
  right_inv p := by cases p <;> rfl

/-- The slot where each corner identity sits in the solved cube. -/
def solved_corner_index : CornerId ≃ CornerPos where
  toFun i :=
    match i with
    | .WBO => .UBL | .WBR => .UBR | .WGR => .UFR | .WGO => .UFL
    | .YGO => .DFL | .YGR => .DFR | .YBR => .DBR | .YBO => .DBL
  invFun p :=
    match p with
    | .UBL => .WBO | .UBR => .WBR | .UFR => .WGR | .UFL => .WGO
    | .DFL => .YGO | .DFR => .YGR | .DBR => .YBR | .DBL => .YBO
  left_inv i := by cases i <;> rfl
  right_inv p := by cases p <;> rfl

/-- Edge permutation parity equals corner permutation parity: any equivalences
agreeing with the slot-to-identity maps, read as permutations relative to the
solved arrangement, have equal signs. -/
def parity_invariant (c : Cube) : Prop :=
  ∀ (e : EdgePos ≃ EdgeId) (k : CornerPos ≃ CornerId),
    (∀ p, e p = edge_ids c p) → (∀ p, k p = corner_ids c p) →
    Equiv.Perm.sign (e.trans solved_edge_index) =
      Equiv.Perm.sign (k.trans solved_corner_index)

/-- The four spec invariants of a cube state. -/
def CubeInvariants (c : Cube) : Prop :=
  Function.Bijective (edge_ids c) ∧ Function.Bijective (corner_ids c) ∧
  corner_orientation_sum c % 3 = 0 ∧ edge_flip_count c % 2 = 0 ∧
  parity_invariant c

/-- The states reachable from the solved cube by applying twists. -/
inductive Reachable : Cube → Prop where
  | solved : Reachable Cube.new_solved
  | twist : ∀ {c : Cube} (t : Twist), Reachable c → Reachable (c.twist t)

/-! ### Solver (src/solver/mod.rs)

The two process-wide lookup tables (`OnceLock<LookupTable>`) are modelled as a
function parameter `table : Nat → Nat`.  The unbounded IDA* loops are modelled
with explicit fuel returning `Option` (`none` = fuel exhausted); every theorem
below holds for every fuel value. -/

/-- Rust `usize::div_ceil` (on naturals). -/
def div_ceil (a b : Nat) : Nat := (a + b - 1) / b

/-- `corner_orientation_heuristic` from `src/solver/mod.rs`: the corner
orientation sum (as usize), divided by 3 rounding up. -/
def corner_orientation_heuristic (cube : Cube) : Nat :=
  div_ceil ((cornerPosList.map fun p => (cube.corners p).orientation.val).sum) 3

/-- `edge_orientation_heuristic` from `src/solver/mod.rs`. -/
def edge_orientation_heuristic (cube : Cube) : Nat :=
  div_ceil ((edgePosList.map fun p => (cube.edges p).flipped.toNat).sum) 3

/-- `pattern_heuristic` from `src/solver/mod.rs`: the process-wide corner
orientation table indexed by `Cube::get_orientation`. -/
def pattern_heuristic (table : Nat → Nat) (cube : Cube) : Nat :=
  table cube.get_orientation

/-- `g1_heuristic` from `src/solver/mod.rs`. -/
def g1_heuristic (table : Nat → Nat) (cube : Cube) : Nat :=
  max (max (corner_orientation_heuristic cube) (edge_orientation_heuristic cube))
    (pattern_heuristic table cube)

/-- The inversion digits of `encode_permutation` from `src/solver/mod.rs`:
for each position, how many later entries are smaller. -/
def inversion_digits : List Nat → List Nat
  | [] => []
  | x :: xs => (xs.countP fun y => y < x) :: inversion_digits xs

/-- `factoradic_to_decimal` from `src/solver/mod.rs`: iterate the digits in
reverse with a running factorial, skipping the lowest digit. -/
def factoradic_to_decimal (l : List Nat) : Nat :=
  (l.reverse.enum.foldl
    (fun st ip =>
      if ip.1 = 0 then st
      else (st.1 + ip.2 * (st.2 * ip.1), st.2 * ip.1))
    (0, 1)).1

/-- `encode_permutation` from `src/solver/mod.rs` (Lehmer code in the
factorial number system). -/
def encode_permutation (perm : List Nat) : Nat :=
  factoradic_to_decimal (inversion_digits perm)

/-- `solved_heuristic` from `src/solver/mod.rs`: the process-wide corner
permutation table indexed by the Lehmer code of the corner identities
(`Corner` converts to usize as `self.id as usize`, per the `Into<usize>`
implementation in `src/cube/cubie.rs`). -/
def solved_heuristic (table : Nat → Nat) (cube : Cube) : Nat :=
  table (encode_permutation (cornerPosList.map fun p => (cube.corners p).id.idx))

/-- `is_g1` from `src/solver/mod.rs`: no flipped edge, the four middle-layer
slots hold only middle-layer identities, and every corner orientation is 0. -/
def is_g1 (cube : Cube) : Bool :=
  (edgePosList.all fun p =>
    !(cube.edges p).flipped &&
    (decide (p = EdgePos.BL ∨ p = EdgePos.BR ∨ p = EdgePos.FR ∨ p = EdgePos.FL) →
      decide ((cube.edges p).id = EdgeId.BO ∨ (cube.edges p).id = EdgeId.BR ∨
        (cube.edges p).id = EdgeId.GR ∨ (cube.edges p).id = EdgeId.GO) : Bool)) &&
  (cornerPosList.all fun p =>
    decide ((cube.corners p).orientation = CornerOrientation.Zero))

/-- `DfsResult` from `src/solver/mod.rs`. -/
inductive DfsResult where
  | Found
  | Excess (v : Nat)
deriving DecidableEq, Repr

/-- `GroupInfo` from `src/solver/mod.rs`: a phase descriptor. -/
structure GroupInfo where
  check : Cube → Bool
  heuristic : Cube → Nat
  moveset : List Twist

/-- `GroupInfo::allowed_moves` from `src/solver/mod.rs`. -/
def GroupInfo.allowed_moves (g : GroupInfo) (prev : Option Turn) : List Twist :=
  Twist.allowed_moves_from_moveset g.moveset prev

/-- `GroupInfo::G1_MOVESET` from `src/solver/mod.rs`. -/
def GroupInfo.G1_MOVESET : List Twist :=
  [⟨.U, .One⟩, ⟨.U, .Two⟩, ⟨.U, .Prime⟩,
   ⟨.D, .One⟩, ⟨.D, .Two⟩, ⟨.D, .Prime⟩,
   ⟨.F, .Two⟩, ⟨.B, .Two⟩, ⟨.L, .Two⟩, ⟨.R, .Two⟩]

/-- `std::usize::MAX` on the 64-bit target (initial `min_excess`). -/
def USIZE_MAX : Nat := 2 ^ 64 - 1

/-- The `for twist in allowed_moves` loop of `dfs` from `src/solver/mod.rs`,
with the `min_excess` accumulator.  The recursive `dfs` call (at one smaller
fuel) is passed in as `next`.  After a non-`Found` recursive call the Rust
code undoes the twist (`cube.twist(twist.inverse())`) and continues. -/
def dfs_go
    (next : Cube → Nat → Nat → Option Turn → List Twist →
      Option (DfsResult × Cube × List Twist))
    (moves : List Twist) (cube : Cube) (g bound : Nat)
    (solution : List Twist) (min_excess : Nat) :
    Option (DfsResult × Cube × List Twist) :=
  match moves with
  | [] => some (.Excess min_excess, cube, solution)
  | twist :: rest =>
    match next (cube.twist twist) (g + 1) bound (some twist.turn) solution with
    | none => none
    | some (.Found, cube2, sol2) => some (.Found, cube2, sol2 ++ [twist])
    | some (.Excess v, cube2, sol2) =>
      dfs_go next rest (cube2.twist twist.inverse) g bound sol2
        (min min_excess v)

/-- `dfs` from `src/solver/mod.rs`, with explicit fuel (`none` = fuel ran
out).  The Rust function mutates `cube` and `solution` through `&mut`; the
model returns their values at return time alongside the result. -/
def dfs (fuel : Nat) (g_info : GroupInfo) (cube : Cube) (g bound : Nat)
    (prev_turn : Option Turn) (solution : List Twist) :
    Option (DfsResult × Cube × List Twist) :=
  match fuel with
  | 0 => none
  | fuel' + 1 =>
    let f := g + g_info.heuristic cube
    if f > bound then some (.Excess f, cube, solution)
    else if g_info.check cube then some (.Found, cube, solution)
    else dfs_go (fun c2 g2 b2 p2 s2 => dfs fuel' g_info c2 g2 b2 p2 s2)
      (g_info.allowed_moves prev_turn) cube g bound solution USIZE_MAX

/-- The `loop` of `group_solver` from `src/solver/mod.rs`, with outer fuel. -/
def group_solver_loop (fuel_outer fuel_dfs : Nat) (g_info : GroupInfo)
    (cube : Cube) (bound : Nat) (solution : List Twist) :
    Option (Algorithm × Cube) :=
  match fuel_outer with
  | 0 => none
  | n + 1 =>
    match dfs fuel_dfs g_info cube 0 bound none solution with
    | none => none
    | some (.Found, cube2, sol2) => some (Algorithm.new sol2.reverse, cube2)
    | some (.Excess v, cube2, sol2) =>
      group_solver_loop n fuel_dfs g_info cube2 v sol2

/-- `group_solver` from `src/solver/mod.rs`: IDA* with the initial bound set
to the heuristic of the start state and an empty solution buffer. -/
def group_solver (fuel_outer fuel_dfs : Nat) (cube : Cube)
    (g_info : GroupInfo) : Option (Algorithm × Cube) :=
  group_solver_loop fuel_outer fuel_dfs g_info cube (g_info.heuristic cube) []

/-- `solver` from `src/solver/mod.rs`: phase 1 to G1 with the full move-set,
then phase 2 to solved with the G1 move-set on the same cube, concatenating
the two algorithms. -/
def solver (fuel_outer fuel_dfs : Nat) (tableO tableP : Nat → Nat)
    (cube : Cube) : Option (Algorithm × Cube) :=
  match group_solver fuel_outer fuel_dfs cube
    ⟨is_g1, g1_heuristic tableO, Twist.ALL_MOVES⟩ with
  | none => none
  | some (alg, cube1) =>
    match group_solver fuel_outer fuel_dfs cube1
      ⟨Cube.is_solved, solved_heuristic tableP, GroupInfo.G1_MOVESET⟩ with
    | none => none
    | some (alg2, cube2) => some (alg.append alg2, cube2)

/-- Postcondition of `dfs` relative to its entry cube and solution buffer:
on `Found` the buffer grew by the (reversed) path from the entry cube to a
goal state; on `Excess` both are unchanged. -/
def dfs_post (g_info : GroupInfo) (cube : Cube) (sol : List Twist) :
    DfsResult × Cube × List Twist → Prop
  | (.Found, c2, s2) => g_info.check c2 = true ∧
      ∃ path, s2 = sol ++ path ∧ cube.apply_twists path.reverse = c2
  | (.Excess _, c2, s2) => c2 = cube ∧ s2 = sol

/-- The source turn engine agrees with the closed forms at every slot. -/
theorem twist_eq_spec (c : Cube) (t : Twist) : c.twist t = twist_spec t c := by
  obtain ⟨turn, dir⟩ := t
  cases turn <;> cases dir <;>
    exact Cube.ext (by funext p; cases p <;> rfl) (by funext p; cases p <;> rfl)

@[simp]
theorem Edge.flip_flip (e : Edge) : e.flip.flip = e := by
  cases e with
  | mk id flipped => simp [Edge.flip]

@[simp]
theorem Corner.ccw_cw (c : Corner) :
    c.twist_counterclockwise.twist_clockwise = c := by
  obtain ⟨i, o⟩ := c
  cases o <;> rfl

@[simp]
theorem Corner.cw_ccw (c : Corner) :
    c.twist_clockwise.twist_counterclockwise = c := by
  obtain ⟨i, o⟩ := c
  cases o <;> rfl

/-- Applying a twist and then its inverse restores the cube (helper for the
claim theorems; proved by exhausting the 24 face/direction pairs and the 20
slots). -/
theorem twist_twist_inverse (c : Cube) (t : Twist) :
    (c.twist t).twist t.inverse = c := by
  rw [twist_eq_spec, twist_eq_spec]
  obtain ⟨turn, dir⟩ := t
  cases turn <;> cases dir <;>
    (refine Cube.ext ?_ ?_ <;> funext p <;> cases p <;>
      first
        | rfl
        | simp only [Twist.inverse, twist_spec,
            twist_spec_U1, twist_spec_U2, twist_spec_U3,
            twist_spec_D1, twist_spec_D2, twist_spec_D3,
            twist_spec_F1, twist_spec_F2, twist_spec_F3,
            twist_spec_B1, twist_spec_B2, twist_spec_B3,
            twist_spec_L1, twist_spec_L2, twist_spec_L3,
            twist_spec_R1, twist_spec_R2, twist_spec_R3,
            Edge.flip_flip, Corner.ccw_cw, Corner.cw_ccw])

theorem new_random_mem (pick : Nat) (prev : Option Turn) :
    Twist.new_random pick prev ∈ Twist.allowed_moves prev := by
  have hlen : 0 < (Twist.allowed_moves prev).length := by
    rcases prev with _ | p
    · decide
    · cases p <;> decide
  have hlt : pick % (Twist.allowed_moves prev).length <
      (Twist.allowed_moves prev).length := Nat.mod_lt _ hlen
  unfold Twist.new_random
  rw [List.getD_eq_getElem?_getD, List.getElem?_eq_getElem hlt]
  exact List.getElem_mem hlt

theorem mem_allowed_moves_ok (p : Turn) (m : Twist)
    (h : m ∈ Twist.allowed_moves (some p)) : scramble_pair_ok p m.turn := by
  revert h
  cases p <;> exact fun h => by
    obtain ⟨t, d⟩ := m
    cases t <;> cases d <;> first
      | exact absurd h (by decide)
      | decide

theorem new_random_go_chain (picks : Nat → Nat) :
    ∀ (n i : Nat) (prev : Option Turn),
      List.Chain' (fun a b : Twist => scramble_pair_ok a.turn b.turn)
        (Algorithm.new_random_go picks i prev n) := by
  intro n
  induction n with
  | zero => intro i prev; exact List.chain'_nil
  | succ n ih =>
    intro i prev
    rw [Algorithm.new_random_go, List.chain'_cons']
    refine ⟨?_, ih (i + 1) _⟩
    intro h hh
    cases n with
    | zero => simp [Algorithm.new_random_go] at hh
    | succ m =>
      rw [Algorithm.new_random_go] at hh
      simp only [List.head?_cons, Option.mem_def, Option.some.injEq] at hh
      subst hh
      exact mem_allowed_moves_ok _ _ (new_random_mem _ _)

/-- C9: every scramble from the random generator satisfies the adjacency
constraint (no repeated face, no D-then-U, L-then-R or B-then-F), because
`allowed_moves` filters exactly those twists; with no previous face all 18
twists are allowed. -/
theorem claim_C9_scramble_move_adjacency :
    (∀ (picks : Nat → Nat) (n : Nat),
      List.Chain' (fun a b : Twist => scramble_pair_ok a.turn b.turn)
        (Algorithm.new_random picks n).twists) ∧
    Twist.allowed_moves none = Twist.ALL_MOVES ∧
    (∀ (p : Turn) (m : Twist), m ∈ Twist.allowed_moves (some p) →
      m.turn ≠ p ∧ (p = .D → m.turn ≠ .U) ∧ (p = .L → m.turn ≠ .R) ∧
      (p = .B → m.turn ≠ .F)) := by
  refine ⟨fun picks n => new_random_go_chain picks n 0 none, by decide, ?_⟩
  intro p m h
  cases p <;> revert h <;>
    · obtain ⟨t, d⟩ := m
      cases t <;> cases d <;> first
        | exact fun h => absurd h (by decide)
        | exact fun _ => by decide

theorem claim_C9_scramble_move_adjacency_witness :
    (⟨Turn.F, TurnDir.One⟩ : Twist) ∈ Twist.allowed_moves (some Turn.L) ∧
    ((⟨Turn.F, TurnDir.One⟩ : Twist).turn ≠ Turn.L ∧
      (Turn.L = .D → (⟨Turn.F, TurnDir.One⟩ : Twist).turn ≠ .U) ∧
      (Turn.L = .L → (⟨Turn.F, TurnDir.One⟩ : Twist).turn ≠ .R) ∧
      (Turn.L = .B → (⟨Turn.F, TurnDir.One⟩ : Twist).turn ≠ .F)) :=
  ⟨by decide, claim_C9_scramble_move_adjacency.2.2 Turn.L ⟨Turn.F, TurnDir.One⟩ (by decide)⟩

/-- C4: for every cube state and twist, applying the twist and then its
inverse restores the cube exactly (all edge and corner slots, identities and
orientations included). -/
theorem claim_C4_twist_inverse_involution (c : Cube) (t : Twist) :
    (c.twist t).twist t.inverse = c :=
  twist_twist_inverse c t

/-- C8: the four literal simplifier examples from the spec (and the repo's
unit tests): "R R R R" simplifies to the empty algorithm, "R L R" to "R2 L",
"L R R" to "L R2", and "L F L" is unchanged. -/
theorem claim_C8_simplify_examples :
    (Algorithm.from_str "R R R R").simplify = Algorithm.new [] ∧
    (Algorithm.from_str "R L R").simplify = Algorithm.from_str "R2 L" ∧
    (Algorithm.from_str "L R R").simplify = Algorithm.from_str "L R2" ∧
    (Algorithm.from_str "L F L").simplify = Algorithm.from_str "L F L" := by
  decide

/-- C10: applying the 20-move superflip to the solved cube leaves every corner
in its home slot with orientation 0, every edge in its home slot with
flipped = true, and the orientation coordinate is 2047 * 3^7. -/
theorem claim_C10_superflip :
    (Cube.new_solved.apply_algorithm SUPERFLIP).corners = Cube.SOLVED_CORNERS ∧
    (Cube.new_solved.apply_algorithm SUPERFLIP).edges =
      (fun p => ⟨(Cube.SOLVED_EDGES p).id, true⟩) ∧
    (Cube.new_solved.apply_algorithm SUPERFLIP).get_orientation = 2047 * 3 ^ 7 := by
  refine ⟨?_, ?_, ?_⟩ <;> decide

theorem apply_twists_append (c : Cube) (l1 l2 : List Twist) :
    c.apply_twists (l1 ++ l2) = (c.apply_twists l1).apply_twists l2 := by
  simp [Cube.apply_twists]

theorem apply_algorithm_eq_apply_twists (c : Cube) (a : Algorithm) :
    c.apply_algorithm a = c.apply_twists a.twists := rfl

theorem twist_dir_none (c : Cube) (t : Turn) : c.twist ⟨t, .None⟩ = c := rfl

/-- Two successive twists of the same face compose to a single twist whose
direction is the modular sum (the soundness of `Twist::try_add`). -/
theorem twist_twist_same (c : Cube) (t : Turn) (d1 d2 : TurnDir) :
    (c.twist ⟨t, d1⟩).twist ⟨t, d2⟩ = c.twist ⟨t, d1.add d2⟩ := by
  rw [twist_eq_spec, twist_eq_spec, twist_eq_spec]
  cases t <;> cases d1 <;> cases d2 <;>
    (refine Cube.ext ?_ ?_ <;> funext p <;> cases p <;>
      first
        | rfl
        | simp only [TurnDir.add, TurnDir.as_u8, TurnDir.from_u8, twist_spec,
            twist_spec_U1, twist_spec_U2, twist_spec_U3,
            twist_spec_D1, twist_spec_D2, twist_spec_D3,
            twist_spec_F1, twist_spec_F2, twist_spec_F3,
            twist_spec_B1, twist_spec_B2, twist_spec_B3,
            twist_spec_L1, twist_spec_L2, twist_spec_L3,
            twist_spec_R1, twist_spec_R2, twist_spec_R3,
            Edge.flip_flip, Corner.ccw_cw, Corner.cw_ccw])

/-- Twists of opposite faces act on disjoint slot rings and therefore
commute. -/
theorem twist_comm_opposite (c : Cube) (a b : Twist)
    (h : a.turn.is_opposite b.turn = true) :
    (c.twist a).twist b = (c.twist b).twist a := by
  rw [twist_eq_spec, twist_eq_spec, twist_eq_spec, twist_eq_spec]
  obtain ⟨ta, da⟩ := a
  obtain ⟨tb, db⟩ := b
  cases ta <;> cases tb <;>
    first
      | exact Bool.noConfusion h
      | (cases da <;> cases db <;>
          (refine Cube.ext ?_ ?_ <;> funext p <;> cases p <;> rfl))

theorem twist_twist_same_turn (c : Cube) (a b : Twist) (h : a.turn = b.turn) :
    (c.twist a).twist b = c.twist ⟨a.turn, a.dir.add b.dir⟩ := by
  obtain ⟨ta, da⟩ := a
  obtain ⟨tb, db⟩ := b
  simp only at h
  subst h
  exact twist_twist_same c ta da db

theorem is_opposite_symm (a b : Turn) : a.is_opposite b = b.is_opposite a := by
  revert a b; decide

theorem try_add_some_elim {a b r : Twist} (h : a.try_add b = some r) :
    a.turn = b.turn ∧ r = ⟨a.turn, a.dir.add b.dir⟩ := by
  unfold Twist.try_add at h
  by_cases he : a.turn = b.turn
  · rw [if_neg (by simpa using he)] at h
    injection h with h2
    exact ⟨he, h2.symm⟩
  · rw [if_pos (by simpa using he)] at h
    exact absurd h (by simp)

theorem try_add_none_elim {a b : Twist} (h : a.try_add b = none) :
    a.turn ≠ b.turn := by
  unfold Twist.try_add at h
  by_cases he : a.turn = b.turn
  · rw [if_neg (by simpa using he)] at h
    exact absurd h (by simp)
  · exact he

/-- The key rewriting behind step 3 of the simplifier: with `s` and `t` on the
same face and `l` on the opposite face, `s; l; t` equals `(s + t); l`. -/
theorem twist_three_across (c : Cube) (s l t : Twist)
    (hop : s.turn.is_opposite l.turn = true) (hst : s.turn = t.turn) :
    ((c.twist s).twist l).twist t = (c.twist ⟨s.turn, s.dir.add t.dir⟩).twist l := by
  have hlt : l.turn.is_opposite t.turn = true := by
    rw [is_opposite_symm, ← hst]; exact hop
  rw [twist_comm_opposite (c.twist s) l t hlt,
    twist_twist_same_turn c s t hst]

theorem simplify_triple_ok_tail {x : Twist} {l : List Twist}
    (h : simplify_triple_ok (x :: l)) : simplify_triple_ok l := by
  match l with
  | [] => trivial
  | [a] => trivial
  | a :: b :: rest => exact h.2

theorem simplify_inv_tail {x : Twist} {l : List Twist}
    (h : simplify_inv (x :: l)) : simplify_inv l :=
  ⟨fun t ht => h.1 t (List.mem_cons_of_mem x ht), h.2.1.tail,
    simplify_triple_ok_tail h.2.2⟩

theorem simplify_inv_suffix : ∀ (xs l : List Twist),
    simplify_inv (xs ++ l) → simplify_inv l
  | [], _, h => h
  | _ :: xs, l, h => simplify_inv_suffix xs l (simplify_inv_tail h)

theorem simplify_adj_ok_head_congr {x y : Twist} {l : List Twist}
    (ht : y.turn = x.turn) (h : simplify_adj_ok (x :: l)) :
    simplify_adj_ok (y :: l) := by
  cases l with
  | nil => exact List.chain'_singleton y
  | cons b l2 =>
    rw [simplify_adj_ok, List.chain'_cons] at h ⊢
    exact ⟨by rw [ht]; exact h.1, h.2⟩

theorem simplify_triple_ok_head_congr {x y : Twist} {l : List Twist}
    (ht : y.turn = x.turn) (h : simplify_triple_ok (x :: l)) :
    simplify_triple_ok (y :: l) := by
  match l with
  | [] => trivial
  | [b] => trivial
  | b :: c :: rest =>
    exact ⟨fun hbc => by rw [ht]; exact h.1 hbc, h.2⟩

theorem simplify_triple_ok_second_congr {a x y : Twist} {l : List Twist}
    (ht : y.turn = x.turn) (h : simplify_triple_ok (a :: x :: l)) :
    simplify_triple_ok (a :: y :: l) := by
  match l with
  | [] => trivial
  | c :: rest =>
    refine ⟨fun hyc => h.1 ?_, simplify_triple_ok_head_congr ht h.2⟩
    rw [← ht]; exact hyc

theorem opposite_unique {a b c : Turn} (hac : a.is_opposite c = true)
    (hbc : b.is_opposite c = true) : a = b := by
  revert hac hbc; revert a b c; decide

/-- Step invariant: each simplifier step preserves the accumulator
invariant. -/
theorem simplify_step_inv (acc : List Twist) (t : Twist)
    (h : simplify_inv acc) : simplify_inv (Algorithm.simplify_step acc t) := by
  obtain ⟨hdirs, hadj, htrip⟩ := h
  unfold Algorithm.simplify_step
  split
  · exact ⟨hdirs, hadj, htrip⟩
  next ht =>
    split
    · -- empty accumulator: push
      refine ⟨?_, List.chain'_singleton t, trivial⟩
      intro u hu
      rw [List.mem_singleton] at hu
      subst hu
      exact ht
    next last rest =>
      split
      next added hadd =>
        obtain ⟨hturn, haddval⟩ := try_add_some_elim hadd
        split
        · -- sum is the identity direction: pop
          exact simplify_inv_tail ⟨hdirs, hadj, htrip⟩
        next haddne =>
          -- replace the most recent twist by the combined one (same face)
          have hteq : added.turn = last.turn := by rw [haddval]
          refine ⟨?_, simplify_adj_ok_head_congr hteq hadj,
            simplify_triple_ok_head_congr hteq htrip⟩
          intro u hu
          rcases List.mem_cons.mp hu with rfl | hu2
          · exact haddne
          · exact hdirs u (List.mem_cons_of_mem last hu2)
      next hnone =>
        split
        next second_last rest2 =>
          split
          next hop =>
            split
            next added hadd2 =>
              obtain ⟨hturn2, haddval2⟩ := try_add_some_elim hadd2
              split
              · -- cross-combination cancels: drop `second_last`
                refine ⟨?_, ?_, ?_⟩
                · intro u hu
                  rcases List.mem_cons.mp hu with rfl | hu2
                  · exact hdirs u (List.mem_cons_self ..)
                  · exact hdirs u (List.mem_cons_of_mem _
                      (List.mem_cons_of_mem _ hu2))
                · -- adjacency of `last` with the head of `rest2`
                  cases rest2 with
                  | nil => exact List.chain'_singleton last
                  | cons c2 rest3 =>
                    rw [simplify_adj_ok, List.chain'_cons]
                    refine ⟨?_, ((List.chain'_cons.mp
                      (List.chain'_cons.mp hadj).2).2)⟩
                    intro hlc
                    have hopc : second_last.turn.is_opposite c2.turn = true := by
                      rw [← hlc]; exact hop
                    exact (htrip.1 hopc) hlc
                · -- triple property of `last :: rest2`
                  cases rest2 with
                  | nil => trivial
                  | cons c2 rest3 =>
                    cases rest3 with
                    | nil => trivial
                    | cons d2 rest4 =>
                      refine ⟨?_, htrip.2.2⟩
                      intro hc2d2 hld
                      have hc2last : c2.turn.is_opposite last.turn = true := by
                        rw [← hld] at hc2d2; exact hc2d2
                      have : c2.turn = second_last.turn :=
                        opposite_unique hc2last hop
                      exact (List.chain'_cons.mp
                        (List.chain'_cons.mp hadj).2).1 this.symm
              next haddne2 =>
                -- replace `second_last` by the combined twist (same face)
                have hteq2 : added.turn = second_last.turn := by rw [haddval2]
                refine ⟨?_, ?_, simplify_triple_ok_second_congr hteq2 htrip⟩
                · intro u hu
                  rcases List.mem_cons.mp hu with rfl | hu2
                  · exact hdirs u (List.mem_cons_self ..)
                  · rcases List.mem_cons.mp hu2 with rfl | hu3
                    · exact haddne2
                    · exact hdirs u (List.mem_cons_of_mem _
                        (List.mem_cons_of_mem _ hu3))
                · rw [simplify_adj_ok, List.chain'_cons] at hadj ⊢
                  refine ⟨by rw [hteq2]; exact hadj.1,
                    simplify_adj_ok_head_congr hteq2 hadj.2⟩
            next hnone2 =>
              -- push, with the cross-combination ruled out
              refine ⟨?_, ?_, ?_⟩
              · intro u hu
                rcases List.mem_cons.mp hu with rfl | hu2
                · simpa using ht
                · exact hdirs u hu2
              · rw [simplify_adj_ok, List.chain'_cons]
                exact ⟨fun hh => (try_add_none_elim hnone) hh.symm, hadj⟩
              · refine ⟨?_, htrip⟩
                intro hls
                exact fun hts => (try_add_none_elim hnone2) hts.symm
          next hnop =>
            -- push, the two most recent twists are not on opposite faces
            refine ⟨?_, ?_, ?_⟩
            · intro u hu
              rcases List.mem_cons.mp hu with rfl | hu2
              · simpa using ht
              · exact hdirs u hu2
            · rw [simplify_adj_ok, List.chain'_cons]
              exact ⟨fun hh => (try_add_none_elim hnone) hh.symm, hadj⟩
            · refine ⟨?_, htrip⟩
              intro hls
              exact absurd (by rw [is_opposite_symm] at hls; exact hls) hnop
        next =>
          -- accumulator `[last]`: push
          refine ⟨?_, ?_, trivial⟩
          · intro u hu
            rcases List.mem_cons.mp hu with rfl | hu2
            · simpa using ht
            · exact hdirs u hu2
          · rw [simplify_adj_ok, List.chain'_cons]
            exact ⟨fun hh => (try_add_none_elim hnone) hh.symm, hadj⟩

theorem simplify_fold_inv : ∀ (L acc : List Twist), simplify_inv acc →
    simplify_inv (L.foldl Algorithm.simplify_step acc)
  | [], _, h => h
  | t :: L, acc, h =>
    simplify_fold_inv L (Algorithm.simplify_step acc t) (simplify_step_inv acc t h)

/-- On an accumulator that already satisfies the invariant together with the
incoming twist, the simplifier step is a plain push. -/
theorem simplify_step_push (acc : List Twist) (t : Twist)
    (h : simplify_inv (t :: acc)) :
    Algorithm.simplify_step acc t = t :: acc := by
  obtain ⟨hdirs, hadj, htrip⟩ := h
  have ht : t.dir ≠ TurnDir.None := hdirs t (List.mem_cons_self ..)
  unfold Algorithm.simplify_step
  split
  next htz => exact absurd htz ht
  next =>
    split
    · rfl
    next last rest =>
      have hne : last.turn ≠ t.turn :=
        fun hh => (List.chain'_cons.mp hadj).1 hh.symm
      split
      next added hadd => exact absurd (try_add_some_elim hadd).1 hne
      next =>
        split
        next second_last rest2 =>
          split
          next hop =>
            split
            next added hadd2 =>
              have hst : second_last.turn = t.turn := (try_add_some_elim hadd2).1
              have hls : last.turn.is_opposite second_last.turn = true := by
                rw [is_opposite_symm]; exact hop
              exact absurd hst (htrip.1 hls).symm
            next => rfl
          next => rfl
        next => rfl

/-- Folding the simplifier over a list whose reverse already satisfies the
invariant only pushes. -/
theorem simplify_fixpoint_fold : ∀ (L acc : List Twist),
    simplify_inv (L.reverse ++ acc) →
    L.foldl Algorithm.simplify_step acc = L.reverse ++ acc := by
  intro L
  induction L with
  | nil => intro acc _; simp
  | cons t L ih =>
    intro acc h
    have hassoc : (t :: L).reverse ++ acc = L.reverse ++ (t :: acc) := by
      simp
    rw [hassoc] at h
    have hpush : Algorithm.simplify_step acc t = t :: acc :=
      simplify_step_push acc t (simplify_inv_suffix L.reverse (t :: acc) h)
    rw [List.foldl_cons, hpush, ih (t :: acc) h, hassoc]

theorem apply_rev_cons (c : Cube) (x : Twist) (l : List Twist) :
    c.apply_twists (x :: l).reverse = (c.apply_twists l.reverse).twist x := by
  rw [List.reverse_cons, apply_twists_append]
  rfl

/-- Each simplifier step preserves the effect of the accumulated algorithm
(most-recent-first accumulator, hence the reverses). -/
theorem simplify_step_effect (acc : List Twist) (t : Twist) (c : Cube) :
    c.apply_twists (Algorithm.simplify_step acc t).reverse =
      c.apply_twists (acc.reverse ++ [t]) := by
  rw [apply_twists_append]
  show _ = (c.apply_twists acc.reverse).twist t
  unfold Algorithm.simplify_step
  split
  next ht =>
    -- identity twist: dropping it preserves the effect
    obtain ⟨tt, td⟩ := t
    simp only at ht
    subst ht
    exact (twist_dir_none _ tt).symm
  next ht =>
    split
    · -- empty accumulator: push
      rfl
    next last rest =>
      rw [apply_rev_cons]
      split
      next added hadd =>
        obtain ⟨hturn, haddval⟩ := try_add_some_elim hadd
        rw [twist_twist_same_turn _ last t hturn, ← haddval]
        split
        next haddz =>
          -- `last` and the incoming twist cancel: pop
          obtain ⟨at2, ad2⟩ := added
          simp only at haddz
          subst haddz
          exact (twist_dir_none _ at2).symm
        next =>
          -- replace `last` by the combined twist
          rw [apply_rev_cons]
      next hnone =>
        split
        next second_last rest2 =>
          rw [apply_rev_cons]
          split
          next hop =>
            split
            next added hadd2 =>
              obtain ⟨hturn2, haddval2⟩ := try_add_some_elim hadd2
              rw [twist_three_across _ second_last last t hop hturn2, ← haddval2]
              split
              next haddz2 =>
                -- cross-combination cancels: drop `second_last`
                obtain ⟨at2, ad2⟩ := added
                simp only at haddz2
                subst haddz2
                rw [apply_rev_cons, twist_dir_none]
              next =>
                -- replace `second_last` by the combined twist
                rw [apply_rev_cons, apply_rev_cons]
            next =>
              -- push
              rw [apply_rev_cons, apply_rev_cons, apply_rev_cons]
          next =>
            -- push
            rw [apply_rev_cons, apply_rev_cons, apply_rev_cons]
        next =>
          -- accumulator `[last]`: push
          rw [apply_rev_cons, apply_rev_cons]

/-- Folding the simplifier steps preserves the effect. -/
theorem simplify_fold_effect : ∀ (L acc : List Twist) (c : Cube),
    c.apply_twists ((L.foldl Algorithm.simplify_step acc).reverse) =
      c.apply_twists (acc.reverse ++ L) := by
  intro L
  induction L with
  | nil => intro acc c; simp
  | cons t L ih =>
    intro acc c
    rw [List.foldl_cons, ih (Algorithm.simplify_step acc t) c,
      apply_twists_append, simplify_step_effect, ← apply_twists_append,
      List.append_assoc]
    rfl

/-- C7: the simplifier is idempotent (simplifying twice gives the same twist
list as simplifying once) and effect-preserving (the simplified algorithm acts
on the solved cube exactly as the original; in fact this holds on every
cube). -/
theorem claim_C7_simplify_idempotent_and_effect_preserving (a : Algorithm) :
    a.simplify.simplify.twists = a.simplify.twists ∧
    Cube.new_solved.apply_algorithm a.simplify =
      Cube.new_solved.apply_algorithm a := by
  constructor
  · show ((a.twists.foldl Algorithm.simplify_step []).reverse.foldl
      Algorithm.simplify_step []).reverse = _
    have hinv : simplify_inv (a.twists.foldl Algorithm.simplify_step []) :=
      simplify_fold_inv a.twists [] ⟨fun t ht => absurd ht (List.not_mem_nil t),
        List.chain'_nil, trivial⟩
    rw [simplify_fixpoint_fold (a.twists.foldl Algorithm.simplify_step []).reverse []
      (by simpa using hinv)]
    simp [Algorithm.simplify]
  · show Cube.new_solved.apply_twists
      ((a.twists.foldl Algorithm.simplify_step []).reverse) = _
    rw [simplify_fold_effect a.twists [] Cube.new_solved]
    rfl

theorem sign_cycle4 {α : Type} [DecidableEq α] [Fintype α] {a b c d : α}
    (h1 : a ≠ d) (h2 : a ≠ c) (h3 : a ≠ b) :
    Equiv.Perm.sign (Equiv.swap a d * Equiv.swap a c * Equiv.swap a b) = -1 := by
  rw [Equiv.Perm.sign_mul, Equiv.Perm.sign_mul, Equiv.Perm.sign_swap h1,
    Equiv.Perm.sign_swap h2, Equiv.Perm.sign_swap h3]
  rfl

theorem sign_dswap {α : Type} [DecidableEq α] [Fintype α] {a b c d : α}
    (h1 : a ≠ b) (h2 : c ≠ d) :
    Equiv.Perm.sign (Equiv.swap a b * Equiv.swap c d) = 1 := by
  rw [Equiv.Perm.sign_mul, Equiv.Perm.sign_swap h1, Equiv.Perm.sign_swap h2]
  rfl

/-- Every twist rearranges edge slots and corner slots by permutations of
equal sign, leaving the identities of the moved cubies unchanged. -/
theorem twist_decomposition (t : Twist) :
    ∃ (σe : Equiv.Perm EdgePos) (σc : Equiv.Perm CornerPos),
      Equiv.Perm.sign σe = Equiv.Perm.sign σc ∧
      (∀ (c : Cube) (p : EdgePos), edge_ids (c.twist t) p = edge_ids c (σe p)) ∧
      (∀ (c : Cube) (p : CornerPos),
        corner_ids (c.twist t) p = corner_ids c (σc p)) := by
  obtain ⟨turn, dir⟩ := t
  cases turn <;> cases dir
  case U.None | D.None | F.None | B.None | L.None | R.None =>
    exact ⟨1, 1, rfl, fun c p => rfl, fun c p => rfl⟩
  case U.One =>
    refine ⟨(Equiv.swap .UB .UL * Equiv.swap .UB .UF * Equiv.swap .UB .UR)⁻¹,
      (Equiv.swap .UBL .UFL * Equiv.swap .UBL .UFR * Equiv.swap .UBL .UBR)⁻¹,
      ?_, ?_, ?_⟩
    · rw [Equiv.Perm.sign_inv, Equiv.Perm.sign_inv,
        sign_cycle4 (by decide) (by decide) (by decide),
        sign_cycle4 (by decide) (by decide) (by decide)]
    · intro c p; rw [twist_eq_spec]; cases p <;> rfl
    · intro c p; rw [twist_eq_spec]; cases p <;> rfl
  case U.Two =>
    refine ⟨Equiv.swap .UB .UF * Equiv.swap .UR .UL,
      Equiv.swap .UBL .UFR * Equiv.swap .UBR .UFL, ?_, ?_, ?_⟩
    · rw [sign_dswap (by decide) (by decide), sign_dswap (by decide) (by decide)]
    · intro c p; rw [twist_eq_spec]; cases p <;> rfl
    · intro c p; rw [twist_eq_spec]; cases p <;> rfl
  case U.Prime =>
    refine ⟨Equiv.swap .UB .UL * Equiv.swap .UB .UF * Equiv.swap .UB .UR,
      Equiv.swap .UBL .UFL * Equiv.swap .UBL .UFR * Equiv.swap .UBL .UBR,
      ?_, ?_, ?_⟩
    · rw [sign_cycle4 (by decide) (by decide) (by decide),
        sign_cycle4 (by decide) (by decide) (by decide)]
    · intro c p; rw [twist_eq_spec]; cases p <;> rfl
    · intro c p; rw [twist_eq_spec]; cases p <;> rfl
  case D.One =>
    refine ⟨(Equiv.swap .DF .DL * Equiv.swap .DF .DB * Equiv.swap .DF .DR)⁻¹,
      (Equiv.swap .DFL .DBL * Equiv.swap .DFL .DBR * Equiv.swap .DFL .DFR)⁻¹,
      ?_, ?_, ?_⟩
    · rw [Equiv.Perm.sign_inv, Equiv.Perm.sign_inv,
        sign_cycle4 (by decide) (by decide) (by decide),
        sign_cycle4 (by decide) (by decide) (by decide)]
    · intro c p; rw [twist_eq_spec]; cases p <;> rfl
    · intro c p; rw [twist_eq_spec]; cases p <;> rfl
  case D.Two =>
    refine ⟨Equiv.swap .DF .DB * Equiv.swap .DR .DL,
      Equiv.swap .DFL .DBR * Equiv.swap .DFR .DBL, ?_, ?_, ?_⟩
    · rw [sign_dswap (by decide) (by decide), sign_dswap (by decide) (by decide)]
    · intro c p; rw [twist_eq_spec]; cases p <;> rfl
    · intro c p; rw [twist_eq_spec]; cases p <;> rfl
  case D.Prime =>
    refine ⟨Equiv.swap .DF .DL * Equiv.swap .DF .DB * Equiv.swap .DF .DR,
      Equiv.swap .DFL .DBL * Equiv.swap .DFL .DBR * Equiv.swap .DFL .DFR,
      ?_, ?_, ?_⟩
    · rw [sign_cycle4 (by decide) (by decide) (by decide),
        sign_cycle4 (by decide) (by decide) (by decide)]
    · intro c p; rw [twist_eq_spec]; cases p <;> rfl
    · intro c p; rw [twist_eq_spec]; cases p <;> rfl
  case F.One =>
    refine ⟨(Equiv.swap .UF .FL * Equiv.swap .UF .DF * Equiv.swap .UF .FR)⁻¹,
      (Equiv.swap .UFL .DFL * Equiv.swap .UFL .DFR * Equiv.swap .UFL .UFR)⁻¹,
      ?_, ?_, ?_⟩
    · rw [Equiv.Perm.sign_inv, Equiv.Perm.sign_inv,
        sign_cycle4 (by decide) (by decide) (by decide),
        sign_cycle4 (by decide) (by decide) (by decide)]
    · intro c p; rw [twist_eq_spec]; cases p <;> rfl
    · intro c p; rw [twist_eq_spec]; cases p <;> rfl
  case F.Two =>
    refine ⟨Equiv.swap .UF .DF * Equiv.swap .FR .FL,
      Equiv.swap .UFL .DFR * Equiv.swap .UFR .DFL, ?_, ?_, ?_⟩
    · rw [sign_dswap (by decide) (by decide), sign_dswap (by decide) (by decide)]
    · intro c p; rw [twist_eq_spec]; cases p <;> rfl
    · intro c p; rw [twist_eq_spec]; cases p <;> rfl
  case F.Prime =>
    refine ⟨Equiv.swap .UF .FL * Equiv.swap .UF .DF * Equiv.swap .UF .FR,
      Equiv.swap .UFL .DFL * Equiv.swap .UFL .DFR * Equiv.swap .UFL .UFR,
      ?_, ?_, ?_⟩
    · rw [sign_cycle4 (by decide) (by decide) (by decide),
        sign_cycle4 (by decide) (by decide) (by decide)]
    · intro c p; rw [twist_eq_spec]; cases p <;> rfl
    · intro c p; rw [twist_eq_spec]; cases p <;> rfl
  case B.One =>
    refine ⟨(Equiv.swap .UB .BR * Equiv.swap .UB .DB * Equiv.swap .UB .BL)⁻¹,
      (Equiv.swap .UBL .UBR * Equiv.swap .UBL .DBR * Equiv.swap .UBL .DBL)⁻¹,
      ?_, ?_, ?_⟩
    · rw [Equiv.Perm.sign_inv, Equiv.Perm.sign_inv,
        sign_cycle4 (by decide) (by decide) (by decide),
        sign_cycle4 (by decide) (by decide) (by decide)]
    · intro c p; rw [twist_eq_spec]; cases p <;> rfl
    · intro c p; rw [twist_eq_spec]; cases p <;> rfl
  case B.Two =>
    refine ⟨Equiv.swap .UB .DB * Equiv.swap .BL .BR,
      Equiv.swap .UBL .DBR * Equiv.swap .DBL .UBR, ?_, ?_, ?_⟩
    · rw [sign_dswap (by decide) (by decide), sign_dswap (by decide) (by decide)]
    · intro c p; rw [twist_eq_spec]; cases p <;> rfl
    · intro c p; rw [twist_eq_spec]; cases p <;> rfl
  case B.Prime =>
    refine ⟨Equiv.swap .UB .BR * Equiv.swap .UB .DB * Equiv.swap .UB .BL,
      Equiv.swap .UBL .UBR * Equiv.swap .UBL .DBR * Equiv.swap .UBL .DBL,
      ?_, ?_, ?_⟩
    · rw [sign_cycle4 (by decide) (by decide) (by decide),
        sign_cycle4 (by decide) (by decide) (by decide)]
    · intro c p; rw [twist_eq_spec]; cases p <;> rfl
    · intro c p; rw [twist_eq_spec]; cases p <;> rfl
  case L.One =>
    refine ⟨(Equiv.swap .UL .BL * Equiv.swap .UL .DL * Equiv.swap .UL .FL)⁻¹,
      (Equiv.swap .UBL .DBL * Equiv.swap .UBL .DFL * Equiv.swap .UBL .UFL)⁻¹,
      ?_, ?_, ?_⟩
    · rw [Equiv.Perm.sign_inv, Equiv.Perm.sign_inv,
        sign_cycle4 (by decide) (by decide) (by decide),
        sign_cycle4 (by decide) (by decide) (by decide)]
    · intro c p; rw [twist_eq_spec]; cases p <;> rfl
    · intro c p; rw [twist_eq_spec]; cases p <;> rfl
  case L.Two =>
    refine ⟨Equiv.swap .UL .DL * Equiv.swap .FL .BL,
      Equiv.swap .UBL .DFL * Equiv.swap .UFL .DBL, ?_, ?_, ?_⟩
    · rw [sign_dswap (by decide) (by decide), sign_dswap (by decide) (by decide)]
    · intro c p; rw [twist_eq_spec]; cases p <;> rfl
    · intro c p; rw [twist_eq_spec]; cases p <;> rfl
  case L.Prime =>
    refine ⟨Equiv.swap .UL .BL * Equiv.swap .UL .DL * Equiv.swap .UL .FL,
      Equiv.swap .UBL .DBL * Equiv.swap .UBL .DFL * Equiv.swap .UBL .UFL,
      ?_, ?_, ?_⟩
    · rw [sign_cycle4 (by decide) (by decide) (by decide),
        sign_cycle4 (by decide) (by decide) (by decide)]
    · intro c p; rw [twist_eq_spec]; cases p <;> rfl
    · intro c p; rw [twist_eq_spec]; cases p <;> rfl
  case R.One =>
    refine ⟨(Equiv.swap .UR .FR * Equiv.swap .UR .DR * Equiv.swap .UR .BR)⁻¹,
      (Equiv.swap .UFR .DFR * Equiv.swap .UFR .DBR * Equiv.swap .UFR .UBR)⁻¹,
      ?_, ?_, ?_⟩
    · rw [Equiv.Perm.sign_inv, Equiv.Perm.sign_inv,
        sign_cycle4 (by decide) (by decide) (by decide),
        sign_cycle4 (by decide) (by decide) (by decide)]
    · intro c p; rw [twist_eq_spec]; cases p <;> rfl
    · intro c p; rw [twist_eq_spec]; cases p <;> rfl
  case R.Two =>
    refine ⟨Equiv.swap .UR .DR * Equiv.swap .BR .FR,
      Equiv.swap .UFR .DBR * Equiv.swap .UBR .DFR, ?_, ?_, ?_⟩
    · rw [sign_dswap (by decide) (by decide), sign_dswap (by decide) (by decide)]
    · intro c p; rw [twist_eq_spec]; cases p <;> rfl
    · intro c p; rw [twist_eq_spec]; cases p <;> rfl
  case R.Prime =>
    refine ⟨Equiv.swap .UR .FR * Equiv.swap .UR .DR * Equiv.swap .UR .BR,
      Equiv.swap .UFR .DFR * Equiv.swap .UFR .DBR * Equiv.swap .UFR .UBR,
      ?_, ?_, ?_⟩
    · rw [sign_cycle4 (by decide) (by decide) (by decide),
        sign_cycle4 (by decide) (by decide) (by decide)]
    · intro c p; rw [twist_eq_spec]; cases p <;> rfl
    · intro c p; rw [twist_eq_spec]; cases p <;> rfl

theorem val_twist_clockwise (x : Corner) :
    x.twist_clockwise.orientation.val = (x.orientation.val + 1) % 3 := by
  obtain ⟨i, o⟩ := x
  cases o <;> simp [Corner.twist_clockwise, CornerOrientation.val]

theorem val_twist_counterclockwise (x : Corner) :
    x.twist_counterclockwise.orientation.val = (x.orientation.val + 2) % 3 := by
  obtain ⟨i, o⟩ := x
  cases o <;> simp [Corner.twist_counterclockwise, CornerOrientation.val]

theorem toNat_flip (e : Edge) :
    e.flip.flipped.toNat = (e.flipped.toNat + 1) % 2 := by
  obtain ⟨i, f⟩ := e
  cases f <;> simp [Edge.flip]

/-- Each twist preserves the corner orientation sum modulo 3 (a quarter turn
adds 1+2+1+2 = 6). -/
theorem corner_orientation_sum_twist (c : Cube) (t : Twist) :
    corner_orientation_sum (c.twist t) % 3 = corner_orientation_sum c % 3 := by
  obtain ⟨turn, dir⟩ := t
  rw [twist_eq_spec]
  cases turn <;> cases dir <;>
    (simp only [corner_orientation_sum, cornerPosList, twist_spec,
      twist_spec_U1, twist_spec_U2, twist_spec_U3,
      twist_spec_D1, twist_spec_D2, twist_spec_D3,
      twist_spec_F1, twist_spec_F2, twist_spec_F3,
      twist_spec_B1, twist_spec_B2, twist_spec_B3,
      twist_spec_L1, twist_spec_L2, twist_spec_L3,
      twist_spec_R1, twist_spec_R2, twist_spec_R3,
      List.map_cons, List.map_nil, List.sum_cons, List.sum_nil,
      val_twist_clockwise, val_twist_counterclockwise]
     try omega)

/-- Each twist preserves the flipped-edge count modulo 2 (a quarter turn of F
or B flips four edges). -/
theorem edge_flip_count_twist (c : Cube) (t : Twist) :
    edge_flip_count (c.twist t) % 2 = edge_flip_count c % 2 := by
  obtain ⟨turn, dir⟩ := t
  rw [twist_eq_spec]
  cases turn <;> cases dir <;>
    (simp only [edge_flip_count, edgePosList, twist_spec,
      twist_spec_U1, twist_spec_U2, twist_spec_U3,
      twist_spec_D1, twist_spec_D2, twist_spec_D3,
      twist_spec_F1, twist_spec_F2, twist_spec_F3,
      twist_spec_B1, twist_spec_B2, twist_spec_B3,
      twist_spec_L1, twist_spec_L2, twist_spec_L3,
      twist_spec_R1, twist_spec_R2, twist_spec_R3,
      List.map_cons, List.map_nil, List.sum_cons, List.sum_nil, toNat_flip]
     try omega)

theorem parity_invariant_twist (c : Cube) (t : Twist)
    (h : parity_invariant c) : parity_invariant (c.twist t) := by
  obtain ⟨σe, σc, hsign, he, hc⟩ := twist_decomposition t
  intro e2 k2 he2 hk2
  have he3 : ∀ p, (σe.symm.trans e2) p = edge_ids c p := by
    intro p
    show e2 (σe.symm p) = _
    rw [he2 (σe.symm p), he c (σe.symm p), Equiv.apply_symm_apply]
  have hk3 : ∀ p, (σc.symm.trans k2) p = corner_ids c p := by
    intro p
    show k2 (σc.symm p) = _
    rw [hk2 (σc.symm p), hc c (σc.symm p), Equiv.apply_symm_apply]
  have hmain := h (σe.symm.trans e2) (σc.symm.trans k2) he3 hk3
  rw [Equiv.trans_assoc, Equiv.trans_assoc,
    ← Equiv.Perm.mul_def (e2.trans solved_edge_index) σe.symm,
    ← Equiv.Perm.mul_def (k2.trans solved_corner_index) σc.symm,
    Equiv.Perm.sign_mul, Equiv.Perm.sign_mul,
    ← Equiv.Perm.inv_def, ← Equiv.Perm.inv_def,
    Equiv.Perm.sign_inv, Equiv.Perm.sign_inv, hsign] at hmain
  exact mul_right_cancel hmain

theorem edge_ids_bijective_twist (c : Cube) (t : Twist)
    (h : Function.Bijective (edge_ids c)) :
    Function.Bijective (edge_ids (c.twist t)) := by
  obtain ⟨σe, _, _, he, _⟩ := twist_decomposition t
  have hfun : edge_ids (c.twist t) = edge_ids c ∘ σe := funext (he c)
  rw [hfun]
  exact h.comp σe.bijective

theorem corner_ids_bijective_twist (c : Cube) (t : Twist)
    (h : Function.Bijective (corner_ids c)) :
    Function.Bijective (corner_ids (c.twist t)) := by
  obtain ⟨_, σc, _, _, hc⟩ := twist_decomposition t
  have hfun : corner_ids (c.twist t) = corner_ids c ∘ σc := funext (hc c)
  rw [hfun]
  exact h.comp σc.bijective

/-- Each twist preserves all four invariants. -/
theorem invariants_twist (c : Cube) (t : Twist) (h : CubeInvariants c) :
    CubeInvariants (c.twist t) := by
  obtain ⟨hbe, hbc, hsum, hflip, hpar⟩ := h
  refine ⟨edge_ids_bijective_twist c t hbe, corner_ids_bijective_twist c t hbc,
    ?_, ?_, parity_invariant_twist c t hpar⟩
  · rw [corner_orientation_sum_twist]; exact hsum
  · rw [edge_flip_count_twist]; exact hflip

/-- The solved cube satisfies all four invariants. -/
theorem invariants_solved : CubeInvariants Cube.new_solved := by
  refine ⟨by decide, by decide, by decide, by decide, ?_⟩
  intro e k he hk
  have heq : e.trans solved_edge_index = Equiv.refl EdgePos := by
    apply Equiv.ext
    intro p
    show solved_edge_index (e p) = p
    rw [he p]
    cases p <;> rfl
  have hkq : k.trans solved_corner_index = Equiv.refl CornerPos := by
    apply Equiv.ext
    intro p
    show solved_corner_index (k p) = p
    rw [hk p]
    cases p <;> rfl
  rw [heq, hkq]
  rfl

/-- C3: every application of `Cube::twist` preserves the four cube invariants
(identity maps are permutations, corner orientation sum divisible by 3, even
flipped-edge count, equal edge and corner permutation parity), hence they hold
in every state reachable from the solved cube. -/
theorem claim_C3_twist_preserves_invariants :
    (∀ (c : Cube) (t : Twist), CubeInvariants c → CubeInvariants (c.twist t)) ∧
    (∀ c : Cube, Reachable c → CubeInvariants c) := by
  refine ⟨invariants_twist, ?_⟩
  intro c h
  induction h with
  | solved => exact invariants_solved
  | twist t _ ih => exact invariants_twist _ t ih

theorem claim_C3_twist_preserves_invariants_witness :
    Reachable (Cube.new_solved.twist ⟨.F, .One⟩) ∧
    CubeInvariants (Cube.new_solved.twist ⟨.F, .One⟩) :=
  ⟨Reachable.twist _ Reachable.solved,
    claim_C3_twist_preserves_invariants.2 _ (Reachable.twist _ Reachable.solved)⟩

theorem apply_twists_cons (c : Cube) (t : Twist) (l : List Twist) :
    c.apply_twists (t :: l) = (c.twist t).apply_twists l := rfl

/-- Partial correctness of the move loop, given partial correctness of the
recursive call it was handed. -/
theorem dfs_go_spec (g_info : GroupInfo)
    (next : Cube → Nat → Nat → Option Turn → List Twist →
      Option (DfsResult × Cube × List Twist))
    (hnext : ∀ (c2 : Cube) (g2 b2 : Nat) (p2 : Option Turn) (s2 : List Twist)
      (r : DfsResult × Cube × List Twist),
      next c2 g2 b2 p2 s2 = some r → dfs_post g_info c2 s2 r) :
    ∀ (moves : List Twist) (cube : Cube) (g bound : Nat) (sol : List Twist)
      (minx : Nat) (r : DfsResult × Cube × List Twist),
      dfs_go next moves cube g bound sol minx = some r →
        dfs_post g_info cube sol r := by
  intro moves
  induction moves with
  | nil =>
    intro cube g bound sol minx r h
    rw [dfs_go] at h
    injection h with h2
    subst h2
    exact ⟨rfl, rfl⟩
  | cons t rest ih =>
    intro cube g bound sol minx r h
    rw [dfs_go] at h
    cases hd : next (cube.twist t) (g + 1) bound (some t.turn) sol with
    | none => rw [hd] at h; exact absurd h (by simp)
    | some r1 =>
      rw [hd] at h
      obtain ⟨r1res, c2, s2⟩ := r1
      cases r1res with
      | Found =>
        have hpost := hnext _ _ _ _ _ _ hd
        obtain ⟨hcheck, path, hs2, happly⟩ := hpost
        simp only at h
        injection h with h2
        subst h2
        refine ⟨hcheck, path ++ [t], by rw [hs2, List.append_assoc], ?_⟩
        rw [List.reverse_append, List.reverse_singleton, List.singleton_append,
          apply_twists_cons]
        exact happly
      | Excess v =>
        have hpost := hnext _ _ _ _ _ _ hd
        obtain ⟨hc2, hs2⟩ := hpost
        simp only at h
        rw [hc2, hs2, twist_twist_inverse] at h
        exact ih cube g bound sol (min minx v) r h

/-- Partial correctness of `dfs`, by induction on the fuel. -/
theorem dfs_spec : ∀ (fuel : Nat) (g_info : GroupInfo) (cube : Cube)
    (g bound : Nat) (prev : Option Turn) (sol : List Twist)
    (r : DfsResult × Cube × List Twist),
    dfs fuel g_info cube g bound prev sol = some r →
      dfs_post g_info cube sol r := by
  intro fuel
  induction fuel with
  | zero =>
    intro g_info cube g bound prev sol r h
    rw [dfs] at h
    exact absurd h (by simp)
  | succ n ihn =>
    intro g_info cube g bound prev sol r h
    rw [dfs] at h
    split at h
    · injection h with h2
      subst h2
      exact ⟨rfl, rfl⟩
    · split at h
      next hcheck =>
        injection h with h2
        subst h2
        exact ⟨hcheck, [], by simp, rfl⟩
      next =>
        exact dfs_go_spec g_info _ (fun c2 g2 b2 p2 s2 r2 hr2 =>
          ihn g_info c2 g2 b2 p2 s2 r2 hr2) _ cube g bound sol USIZE_MAX r h

/-- Partial correctness of the IDA* loop: on success the returned cube is a
goal state reached from the entry cube by the returned path. -/
theorem group_solver_loop_spec : ∀ (fo fd : Nat) (g_info : GroupInfo)
    (cube : Cube) (bound : Nat) (sol : List Twist) (alg : Algorithm) (c2 : Cube),
    group_solver_loop fo fd g_info cube bound sol = some (alg, c2) →
    g_info.check c2 = true ∧
      ∃ path, alg.twists = (sol ++ path).reverse ∧
        cube.apply_twists path.reverse = c2 := by
  intro fo
  induction fo with
  | zero =>
    intro fd g_info cube bound sol alg c2 h
    rw [group_solver_loop] at h
    exact absurd h (by simp)
  | succ n ih =>
    intro fd g_info cube bound sol alg c2 h
    rw [group_solver_loop] at h
    cases hd : dfs fd g_info cube 0 bound none sol with
    | none => rw [hd] at h; exact absurd h (by simp)
    | some r1 =>
      rw [hd] at h
      obtain ⟨r1res, cc, ss⟩ := r1
      cases r1res with
      | Found =>
        have hpost := dfs_spec fd _ _ _ _ _ _ _ hd
        obtain ⟨hcheck, path, hss, happly⟩ := hpost
        simp only [Option.some.injEq, Prod.mk.injEq] at h
        obtain ⟨ha, hb⟩ := h
        subst ha
        subst hb
        refine ⟨hcheck, path, ?_, happly⟩
        show ss.reverse = (sol ++ path).reverse
        rw [hss]
      | Excess v =>
        have hpost := dfs_spec fd _ _ _ _ _ _ _ hd
        obtain ⟨hcc, hss⟩ := hpost
        simp only at h
        rw [hcc, hss] at h
        exact ih fd g_info cube v sol alg c2 h

/-- Partial correctness of `group_solver`: the cube it leaves behind is the
first goal state found, and it equals the entry cube with the returned
algorithm applied. -/
theorem group_solver_spec (fo fd : Nat) (cube : Cube) (g_info : GroupInfo)
    (alg : Algorithm) (c2 : Cube)
    (h : group_solver fo fd cube g_info = some (alg, c2)) :
    g_info.check c2 = true ∧ cube.apply_algorithm alg = c2 := by
  obtain ⟨hcheck, path, htw, happly⟩ :=
    group_solver_loop_spec fo fd g_info cube (g_info.heuristic cube) [] alg c2 h
  refine ⟨hcheck, ?_⟩
  rw [apply_algorithm_eq_apply_twists, htw]
  simpa using happly

/-- C2: whenever the solver's phase 1 — `group_solver` with goal `is_g1`,
heuristic `g1_heuristic` (over the process-wide orientation table, modelled as
the parameter `table`) and the full 18-twist move-set — returns an algorithm,
applying that algorithm to the scrambled cube produces exactly the cube the
solver left behind, and that cube satisfies `is_g1`. -/
theorem claim_C2_phase1_reaches_g1 (table : Nat → Nat)
    (fuel_outer fuel_dfs : Nat) (cube : Cube) (alg : Algorithm) (cube2 : Cube)
    (h : group_solver fuel_outer fuel_dfs cube
      ⟨is_g1, g1_heuristic table, Twist.ALL_MOVES⟩ = some (alg, cube2)) :
    cube.apply_algorithm alg = cube2 ∧ is_g1 cube2 = true := by
  obtain ⟨hcheck, happly⟩ := group_solver_spec _ _ _ _ _ _ h
  exact ⟨happly, hcheck⟩

theorem claim_C2_phase1_reaches_g1_witness :
    group_solver 2 4 (Cube.new_solved.twist ⟨.F, .One⟩)
      ⟨is_g1, g1_heuristic (fun _ => 0), Twist.ALL_MOVES⟩ =
      some (Algorithm.new [⟨.F, .One⟩],
        (Cube.new_solved.twist ⟨.F, .One⟩).twist ⟨.F, .One⟩) ∧
    ((Cube.new_solved.twist ⟨.F, .One⟩).apply_algorithm
        (Algorithm.new [⟨.F, .One⟩]) =
      (Cube.new_solved.twist ⟨.F, .One⟩).twist ⟨.F, .One⟩ ∧
      is_g1 ((Cube.new_solved.twist ⟨.F, .One⟩).twist ⟨.F, .One⟩) = true) :=
  ⟨by decide, claim_C2_phase1_reaches_g1 (fun _ => 0) 2 4 _ _ _ (by decide)⟩

/-- C6: `solver` works in place: whenever `group_solver` returns, the cube it
leaves behind is the first goal state found and already carries the returned
algorithm; whenever `solver` returns, the caller's cube is solved and equals
the cube with the returned two-phase algorithm applied. -/
theorem claim_C6_solver_mutates_in_place :
    (∀ (g_info : GroupInfo) (fuel_outer fuel_dfs : Nat) (cube : Cube)
        (alg : Algorithm) (cube2 : Cube),
      group_solver fuel_outer fuel_dfs cube g_info = some (alg, cube2) →
      g_info.check cube2 = true ∧ cube.apply_algorithm alg = cube2) ∧
    (∀ (tableO tableP : Nat → Nat) (fuel_outer fuel_dfs : Nat) (cube : Cube)
        (alg : Algorithm) (cube2 : Cube),
      solver fuel_outer fuel_dfs tableO tableP cube = some (alg, cube2) →
      Cube.is_solved cube2 = true ∧ cube.apply_algorithm alg = cube2) := by
  refine ⟨fun g_info fo fd cube alg c2 h => group_solver_spec fo fd cube g_info alg c2 h, ?_⟩
  intro tableO tableP fo fd cube alg cube2 h
  rw [solver] at h
  cases h1 : group_solver fo fd cube
      ⟨is_g1, g1_heuristic tableO, Twist.ALL_MOVES⟩ with
  | none => rw [h1] at h; exact absurd h (by simp)
  | some r1 =>
    rw [h1] at h
    obtain ⟨alg1, cube1⟩ := r1
    cases h2 : group_solver fo fd cube1
        ⟨Cube.is_solved, solved_heuristic tableP, GroupInfo.G1_MOVESET⟩ with
    | none => simp only at h; rw [h2] at h; exact absurd h (by simp)
    | some r2 =>
      simp only at h
      rw [h2] at h
      obtain ⟨alg2, c2⟩ := r2
      simp only [Option.some.injEq, Prod.mk.injEq] at h
      obtain ⟨ha, hb⟩ := h
      subst ha
      subst hb
      obtain ⟨hg1, happ1⟩ := group_solver_spec _ _ _ _ _ _ h1
      obtain ⟨hsolved, happ2⟩ := group_solver_spec _ _ _ _ _ _ h2
      refine ⟨hsolved, ?_⟩
      rw [apply_algorithm_eq_apply_twists]
      show cube.apply_twists (alg1.twists ++ alg2.twists) = c2
      rw [apply_twists_append, ← apply_algorithm_eq_apply_twists,
        ← apply_algorithm_eq_apply_twists, happ1, happ2]

theorem claim_C6_solver_mutates_in_place_witness :
    solver 3 6 (fun _ => 0) (fun _ => 0) (Cube.new_solved.twist ⟨.U, .One⟩) =
      some (Algorithm.new [⟨.U, .Prime⟩], Cube.new_solved) ∧
    (Cube.is_solved Cube.new_solved = true ∧
      (Cube.new_solved.twist ⟨.U, .One⟩).apply_algorithm
        (Algorithm.new [⟨.U, .Prime⟩]) = Cube.new_solved) :=
  ⟨by decide, claim_C6_solver_mutates_in_place.2 (fun _ => 0) (fun _ => 0)
    3 6 _ _ _ (by decide)⟩

/-- C5, evaluated at the failing input: after a single F on the solved cube,
`g1_heuristic` exceeds 1 for every table (its corner and edge components are
both 2), yet one further F twist reaches G1 — the phase-1 solution from that
state has length 1, so the heuristic is not admissible and the claimed
inequality fails. -/
theorem claim_C5_heuristic_exceeds_phase1_length :
    (∀ table : Nat → Nat,
      1 < g1_heuristic table (Cube.new_solved.twist ⟨.F, .One⟩)) ∧
    is_g1 ((Cube.new_solved.twist ⟨.F, .One⟩).twist ⟨.F, .One⟩) = true := by
  constructor
  · intro table
    have h2 : corner_orientation_heuristic (Cube.new_solved.twist ⟨.F, .One⟩) = 2 := by
      decide
    calc 1 < 2 := by omega
    _ = corner_orientation_heuristic (Cube.new_solved.twist ⟨.F, .One⟩) := h2.symm
    _ ≤ _ := le_max_of_le_left (le_max_left _ _)
  · decide

end RubiksSolver
